import Mathlib

set_option maxRecDepth 40000
set_option maxHeartbeats 2000000

/-
Verification of the AI_Writer backend against its specification.

The Python sources (backend/prompts.py, backend/app.py, backend/model.py) are
shallowly embedded below.  Text is modelled as `List Char`; Python's `str`
methods used by the code (`strip`, `replace`, `split`, `rfind`, `startswith`,
`in`) are given executable Lean counterparts with the same semantics.  The
floating point comparison `last_period > len(text) * 0.7` in the sentence
trim is modelled exactly: `0.7` as an IEEE-754 double is
`6305039478318694 / 2^53`, `floatMul07Num len` computes by exact integer
arithmetic the double nearest to `len * 0.7` (53 significant bits, round to
nearest, ties to even), scaled by `2^53`, and the comparison of the integer
`last_period` against that double is exact, as it is in CPython.  The model
is faithful for every `len < 2^53` (any real string length), where CPython's
conversion of `len` to a double is itself exact.  Notably the comparison is
not the rational `10 * last_period > 7 * len`: at, e.g., `len = 170` the
product rounds to `119 - 2^-46`, strictly below `0.7 * 170 = 119`, so the
code trims at `last_period = 119` although `10 * 119 > 7 * 170` fails.
Python's `str.strip` whitespace is modelled by the ASCII whitespace set.
-/

namespace AIWriter

/-- Whitespace characters removed by Python's `str.strip` (ASCII whitespace:
space, tab, newline, carriage return, vertical tab, form feed). -/
def isPySpace (c : Char) : Bool :=
  c = ' ' || c = '\t' || c = '\n' || c = '\r' || c = '\x0b' || c = '\x0c'

/-- Python `text.strip()`: remove leading and trailing whitespace. -/
def pyStrip (s : List Char) : List Char :=
  ((s.dropWhile isPySpace).reverse.dropWhile isPySpace).reverse

/-- Python `pat in text`: substring containment test. -/
def containsSub (pat : List Char) : List Char → Bool
  | [] => pat.isEmpty
  | c :: rest => pat.isPrefixOf (c :: rest) || containsSub pat rest

/-- One pass of Python `text.replace('\n\n\n', '\n\n')`: replace
non-overlapping occurrences left to right. -/
def repNL : List Char → List Char
  | '\n' :: '\n' :: '\n' :: rest => '\n' :: '\n' :: repNL rest
  | c :: rest => c :: repNL rest
  | [] => []

/-- One pass of Python `text.replace('  ', ' ')`. -/
def repSP : List Char → List Char
  | ' ' :: ' ' :: rest => ' ' :: repSP rest
  | c :: rest => c :: repSP rest
  | [] => []

def nl3 : List Char := ['\n', '\n', '\n']
def nl2 : List Char := ['\n', '\n']
def sp2 : List Char := [' ', ' ']

/-- Python `while '\n\n\n' in text: text = text.replace('\n\n\n', '\n\n')`.
Each iteration with the guard true strictly shortens the text, so fuel equal
to the length of the text is enough for the loop to reach its exit
condition. -/
def collapseNL : Nat → List Char → List Char
  | 0, s => s
  | fuel + 1, s => if containsSub nl3 s then collapseNL fuel (repNL s) else s

/-- Python `while '  ' in text: text = text.replace('  ', ' ')`. -/
def collapseSP : Nat → List Char → List Char
  | 0, s => s
  | fuel + 1, s => if containsSub sp2 s then collapseSP fuel (repSP s) else s

/-- Python `text.split(pat)[0]` for a non-empty `pat`: the prefix of the text
before the first occurrence of `pat` (the whole text if `pat` is absent). -/
def cutAt (pat : List Char) : List Char → List Char
  | [] => []
  | c :: rest => if pat.isPrefixOf (c :: rest) then [] else c :: cutAt pat rest

/-- The artifact markers of `clean_output`, in source order. -/
def artifacts : List (List Char) :=
  ["[END]".toList, "[DONE]".toList, "<|endoftext|>".toList,
   "<END>".toList, "</s>".toList]

/-- The artifact loop of `clean_output`:
`for artifact in artifacts: if artifact in text: text = text.split(artifact)[0]`. -/
def removeArtifacts (t : List Char) : List Char :=
  artifacts.foldl (fun text art => if containsSub art text then cutAt art text else text) t

/-- Python `text.replace(pat, rep, 1)` for non-empty `pat`: replace the first
occurrence only. -/
def replaceFirst (pat rep : List Char) : List Char → List Char
  | [] => []
  | c :: rest =>
    if pat.isPrefixOf (c :: rest) then rep ++ (c :: rest).drop pat.length
    else c :: replaceFirst pat rep rest

def subjectLabel : List Char := "Subject:".toList
def subjectLine : List Char := "Subject: Re: Your Inquiry\n\n".toList

/-- Email fix-up: `if not text.startswith('Subject:'): text = f"Subject: Re: Your Inquiry\n\n(text)"`. -/
def fixEmail (text : List Char) : List Char :=
  if subjectLabel.isPrefixOf text then text else subjectLine ++ text

def openingHook : List Char := "[Opening Hook]".toList
def hookTag : List Char := "[Hook]".toList
def openingHookLine : List Char := "[Opening Hook]\n".toList

/-- Video fix-up: `if '[Opening Hook]' not in text and '[Hook]' not in text:
text = f"[Opening Hook]\n(text)"`. -/
def fixVideo (text : List Char) : List Char :=
  if !containsSub openingHook text && !containsSub hookTag text then
    openingHookLine ++ text
  else text

def summaryLabel : List Char := "Summary:".toList

/-- Summarize fix-up: `if text.startswith('Summary:'):
text = text.replace('Summary:', '', 1).strip()`. -/
def fixSummarize (text : List Char) : List Char :=
  if summaryLabel.isPrefixOf text then pyStrip (replaceFirst summaryLabel [] text)
  else text

/-- Python `text.rfind(c)`: the highest index at which `c` occurs, `-1` if it
does not occur. -/
def rfind (c : Char) : List Char → Int
  | [] => -1
  | a :: rest =>
    let r := rfind c rest
    if 0 ≤ r then r + 1 else if a = c then 0 else -1

def dquote : Char := Char.ofNat 34
def squote : Char := Char.ofNat 39

/-- The characters accepted as sentence-ending by the trim step:
`['.', '!', '?', '"', "'", ')']` in the source. -/
def endPunct : List Char := ['.', '!', '?', dquote, squote, ')']

/-- `text[-1]`; only consulted when the text is non-empty (length > 100). -/
def lastChar (s : List Char) : Char := s.getLast?.getD ' '

/-- Fuelled base-2 logarithm: `log2Fuel fuel n = ⌊log₂ n⌋` whenever
`1 ≤ n ≤ fuel` (each step halves `n`, so fuel `n` suffices).  Structural
recursion, so concrete instances evaluate inside the kernel. -/
def log2Fuel : Nat → Nat → Nat
  | 0, _ => 0
  | fuel + 1, n => if 2 ≤ n then log2Fuel fuel (n / 2) + 1 else 0

/-- Round `x / 2^shift` to the nearest integer, ties to even. -/
def roundNearEven (x : Nat) (shift : Nat) : Nat :=
  if 2 * (x % 2 ^ shift) < 2 ^ shift then x / 2 ^ shift
  else if 2 ^ shift < 2 * (x % 2 ^ shift) then x / 2 ^ shift + 1
  else if x / 2 ^ shift % 2 = 0 then x / 2 ^ shift else x / 2 ^ shift + 1

/-- The IEEE-754 double nearest to `len * 0.7`, scaled by `2^53`, as an exact
natural number.  `0.7` as a double is `6305039478318694 / 2^53`; the exact
product `len * 6305039478318694 / 2^53` is rounded to 53 significant bits
(round to nearest, ties to even).  Faithful to CPython's `len(text) * 0.7`
for every `len < 2^53`, where `float(len)` is exact. -/
def floatMul07Num (len : Nat) : Nat :=
  if len * 6305039478318694 < 2 ^ 53 then len * 6305039478318694
  else
    roundNearEven (len * 6305039478318694)
        (log2Fuel (len * 6305039478318694) (len * 6305039478318694) - 52) *
      2 ^ (log2Fuel (len * 6305039478318694) (len * 6305039478318694) - 52)

/-- CPython's `last_period > len(text) * 0.7`: the integer `last_period`
compared exactly against the double `len * 0.7`. -/
def pyFloatGt07 (lastPeriod : Int) (len : Nat) : Bool :=
  decide ((floatMul07Num len : Int) < lastPeriod * 2 ^ 53)

/-- `last_period = max(text.rfind('.'), text.rfind('!'), text.rfind('?'))`. -/
def lastPeriod (text : List Char) : Int :=
  max (rfind '.' text) (max (rfind '!' text) (rfind '?' text))

/-- The sentence-completion trim of `clean_output` (prompts.py lines 182-191):
if the text is longer than 100 characters and does not end in closing
punctuation, keep `text[:last_period + 1]` when `last_period > len(text) * 0.7`
(the comparison evaluated in IEEE-754 double arithmetic, as CPython does). -/
def sentenceTrim (text : List Char) : List Char :=
  if 100 < text.length && !endPunct.contains (lastChar text) then
    if pyFloatGt07 (lastPeriod text) text.length then
      text.take (lastPeriod text + 1).toNat
    else text
  else text

/-- `PromptTemplates.clean_output` (prompts.py lines 129-193). -/
def clean_output (generated_text : List Char) (content_type : String) : List Char :=
  let text := pyStrip generated_text
  let text := collapseNL text.length text
  let text := collapseSP text.length text
  let text := removeArtifacts text
  let text :=
    if content_type = "email" then fixEmail text
    else if content_type = "video" then fixVideo text
    else if content_type = "summarize" then fixSummarize text
    else text
  let text := sentenceTrim text
  pyStrip text

/-- The whitespace-normalisation stage of `clean_output` (strip, newline
collapse loop, space collapse loop), named for the proofs below. -/
def cleanPre (x : List Char) : List Char :=
  let t0 := pyStrip x
  let t1 := collapseNL t0.length t0
  collapseSP t1.length t1

/-- The content-type dispatch stage of `clean_output` (the `if/elif/elif`
chain), named for the proofs below. -/
def dispatchFix (content_type : String) (text : List Char) : List Char :=
  if content_type = "email" then fixEmail text
  else if content_type = "video" then fixVideo text
  else if content_type = "summarize" then fixSummarize text
  else text

/-- The `blog` template f-string. -/
def blogTemplate (x : List Char) : List Char :=
  "Write a comprehensive and engaging blog post about: ".toList ++ x ++
  ("\n\nCreate a well-structured blog post with the following elements:\n" ++
   "- An attention-grabbing introduction\n" ++
   "- Clear and informative main content with multiple paragraphs\n" ++
   "- Practical examples or insights\n" ++
   "- A strong conclusion\n\nBlog Post:\n").toList

/-- The `email` template f-string. -/
def emailTemplate (x : List Char) : List Char :=
  "Write a professional email about: ".toList ++ x ++
  ("\n\nThe email should include:\n" ++
   "- A clear and relevant subject line\n" ++
   "- Professional greeting\n" ++
   "- Well-structured body with main message\n" ++
   "- Appropriate closing and sign-off\n\nEmail:\nSubject: \nDear [Recipient],\n\n").toList

/-- The `copy` template f-string. -/
def copyTemplate (x : List Char) : List Char :=
  "Write persuasive marketing copy for: ".toList ++ x ++
  ("\n\nCreate compelling marketing copy that includes:\n" ++
   "- An attention-grabbing headline\n" ++
   "- Benefits-focused body text that resonates with the audience\n" ++
   "- Emotional appeal and value proposition\n" ++
   "- Strong call-to-action that motivates readers\n\nMarketing Copy:\n").toList

/-- The `seo` template f-string. -/
def seoTemplate (x : List Char) : List Char :=
  "Write SEO-optimized content about: ".toList ++ x ++
  ("\n\nCreate search engine optimized content that includes:\n" ++
   "- Relevant keywords naturally integrated throughout\n" ++
   "- Clear headings and subheadings\n" ++
   "- Informative and valuable content for readers\n" ++
   "- Meta description friendly structure\n\nSEO Content:\n").toList

/-- The `video` template f-string. -/
def videoTemplate (x : List Char) : List Char :=
  "Write an engaging video script about: ".toList ++ x ++
  ("\n\nCreate a video script with:\n" ++
   "- A powerful hook to grab attention in the first 5 seconds\n" ++
   "- Clear and engaging main content\n" ++
   "- Natural conversational tone\n" ++
   "- Strong call-to-action at the end\n\nVideo Script:\n[Opening Hook]\n").toList

/-- The `summarize` template f-string: the user input is the body to be
condensed; it is interpolated exactly once. -/
def summarizeTemplate (x : List Char) : List Char :=
  ("Provide a clear and concise summary of the following text. " ++
   "Capture the main points and key information:\n\n").toList ++ x ++
  "\n\nSummary:\n".toList

/-- The `content` template f-string (also the fallback). -/
def contentTemplate (x : List Char) : List Char :=
  "Generate creative and engaging content about: ".toList ++ x ++
  ("\n\nCreate original content that is:\n" ++
   "- Well-written and easy to read\n" ++
   "- Informative and valuable\n" ++
   "- Properly structured with clear flow\n\nContent:\n").toList

/-- The fixed text of each template before the single interpolation point of
the user input (the fallback line of `prompts.get` included). -/
def templatePre (content_type : String) : List Char :=
  if content_type = "blog" then
    "Write a comprehensive and engaging blog post about: ".toList
  else if content_type = "email" then "Write a professional email about: ".toList
  else if content_type = "copy" then "Write persuasive marketing copy for: ".toList
  else if content_type = "seo" then "Write SEO-optimized content about: ".toList
  else if content_type = "video" then "Write an engaging video script about: ".toList
  else if content_type = "summarize" then
    ("Provide a clear and concise summary of the following text. " ++
     "Capture the main points and key information:\n\n").toList
  else "Generate creative and engaging content about: ".toList

/-- The fixed text of each template after the single interpolation point. -/
def templateSuf (content_type : String) : List Char :=
  if content_type = "blog" then
    ("\n\nCreate a well-structured blog post with the following elements:\n" ++
     "- An attention-grabbing introduction\n" ++
     "- Clear and informative main content with multiple paragraphs\n" ++
     "- Practical examples or insights\n" ++
     "- A strong conclusion\n\nBlog Post:\n").toList
  else if content_type = "email" then
    ("\n\nThe email should include:\n" ++
     "- A clear and relevant subject line\n" ++
     "- Professional greeting\n" ++
     "- Well-structured body with main message\n" ++
     "- Appropriate closing and sign-off\n\nEmail:\nSubject: \nDear [Recipient],\n\n").toList
  else if content_type = "copy" then
    ("\n\nCreate compelling marketing copy that includes:\n" ++
     "- An attention-grabbing headline\n" ++
     "- Benefits-focused body text that resonates with the audience\n" ++
     "- Emotional appeal and value proposition\n" ++
     "- Strong call-to-action that motivates readers\n\nMarketing Copy:\n").toList
  else if content_type = "seo" then
    ("\n\nCreate search engine optimized content that includes:\n" ++
     "- Relevant keywords naturally integrated throughout\n" ++
     "- Clear headings and subheadings\n" ++
     "- Informative and valuable content for readers\n" ++
     "- Meta description friendly structure\n\nSEO Content:\n").toList
  else if content_type = "video" then
    ("\n\nCreate a video script with:\n" ++
     "- A powerful hook to grab attention in the first 5 seconds\n" ++
     "- Clear and engaging main content\n" ++
     "- Natural conversational tone\n" ++
     "- Strong call-to-action at the end\n\nVideo Script:\n[Opening Hook]\n").toList
  else if content_type = "summarize" then "\n\nSummary:\n".toList
  else
    ("\n\nCreate original content that is:\n" ++
     "- Well-written and easy to read\n" ++
     "- Informative and valuable\n" ++
     "- Properly structured with clear flow\n\nContent:\n").toList

/-- `PromptTemplates.get_prompt` (prompts.py lines 21-100):
`prompts.get(content_type, prompts['content'])`, with the dictionary keys
tested in source order. -/
def get_prompt (content_type : String) (user_input : List Char) : List Char :=
  if content_type = "blog" then blogTemplate user_input
  else if content_type = "email" then emailTemplate user_input
  else if content_type = "copy" then copyTemplate user_input
  else if content_type = "seo" then seoTemplate user_input
  else if content_type = "video" then videoTemplate user_input
  else if content_type = "summarize" then summarizeTemplate user_input
  else contentTemplate user_input

/-- `PromptTemplates.get_available_types` (prompts.py lines 224-239). -/
def get_available_types : List String :=
  ["blog", "email", "copy", "seo", "video", "summarize", "content"]

/-- Python `base.split('\n\n')`: split on every non-overlapping occurrence,
left to right. -/
def splitNl2 : List Char → List (List Char)
  | [] => [[]]
  | '\n' :: '\n' :: rest => [] :: splitNl2 rest
  | c :: rest =>
    match splitNl2 rest with
    | h :: t => (c :: h) :: t
    | [] => [[c]]

/-- Python `'\n\n'.join(parts)`. -/
def joinNl2 : List (List Char) → List Char
  | [] => []
  | [x] => x
  | x :: xs => x ++ '\n' :: '\n' :: joinNl2 xs

/-- Python `parts.insert(-1, v)` on a non-empty list: insert `v` immediately
before the last element (appends to an empty list). -/
def insertBeforeLast (v : List Char) : List (List Char) → List (List Char)
  | [] => [v]
  | [x] => [v, x]
  | x :: xs => x :: insertBeforeLast v xs

/-- The body of `PromptTemplates.add_context` after the base prompt has been
computed (prompts.py lines 212-220): when the context is non-empty, split the
base prompt on blank lines, and only if there is more than one part, insert
`f"\nAdditional Context: (additional_context)\n\n"` before the last part and
re-join; otherwise return the base prompt unchanged. -/
def addContextToBase (base_prompt additional_context : List Char) : List Char :=
  if additional_context ≠ [] then
    if 1 < (splitNl2 base_prompt).length then
      joinNl2 (insertBeforeLast
        ("\nAdditional Context: ".toList ++ additional_context ++ "\n\n".toList)
        (splitNl2 base_prompt))
    else base_prompt
  else base_prompt

/-- `PromptTemplates.add_context` (prompts.py lines 196-220). -/
def add_context (content_type : String) (user_input additional_context : List Char) :
    List Char :=
  addContextToBase (get_prompt content_type user_input) additional_context

/-- An `AIWriterModel` instance (model.py): the constructor records the
requested model name; the tokenizer/pipeline loading it performs is an opaque
external effect and is not part of the data model. -/
structure AIWriterModel where
  model_name : String
  deriving DecidableEq

/-- `get_model` (model.py lines 177-186) acting on the `_model_instance`
singleton, passed as explicit state: if an instance exists it is returned
unchanged (the `model_name` argument is not consulted), otherwise a new
instance bound to `model_name` is constructed and stored. -/
def get_model (state : Option AIWriterModel) (model_name : String) :
    AIWriterModel × Option AIWriterModel :=
  match state with
  | some m => (m, some m)
  | none => (⟨model_name⟩, some ⟨model_name⟩)

/-- `reload_model` (model.py lines 188-193): unconditionally replace the
singleton with a fresh instance bound to `model_name`. -/
def reload_model (_state : Option AIWriterModel) (model_name : String) :
    AIWriterModel × Option AIWriterModel :=
  (⟨model_name⟩, some ⟨model_name⟩)

/-- An HTTP error response as raised by `HTTPException(status_code, detail)`. -/
structure HTTPErr where
  status : Nat
  detail : String
  deriving DecidableEq

/-- The response body of a successful `POST /api/generate`. -/
structure GenerateResponse where
  success : Bool
  content : List Char
  type : String
  input_length : Nat
  output_length : Nat
  deriving DecidableEq

/-- `generate_content` (app.py lines 144-198).  The global `model` is passed
as an explicit `Option`; the model's `generate_text` call is an opaque
external capability passed as a function (an exception from it becomes an
HTTP 500, per the final `except` clause).  When `model is None` the handler
raises HTTP 503 before the prompt is ever built. -/
def generate_content (model : Option AIWriterModel)
    (generate_text : AIWriterModel → List Char → Except String (List Char))
    (reqType : String) (reqInput : List Char) : Except HTTPErr GenerateResponse :=
  match model with
  | none => .error ⟨503, "Model not loaded. Please wait and try again."⟩
  | some m =>
    let prompt := get_prompt reqType reqInput
    match generate_text m prompt with
    | .error e => .error ⟨500, e⟩
    | .ok generated =>
      let cleaned := clean_output generated reqType
      .ok ⟨true, cleaned, reqType, reqInput.length, cleaned.length⟩

/-- `startup_event` (app.py lines 78-92): `model = get_model(...)` inside
`try`, with any exception caught and logged, leaving `model = None`. -/
def startup_event (load_model : Except String AIWriterModel) : Option AIWriterModel :=
  match load_model with
  | .ok m => some m
  | .error _ => none

/-- The `type` field of `GenerateRequest` (app.py line 42):
`type: str = Field(default="blog", ...)` — the value applied when the field
is omitted from the request body. -/
def requestTypeField (given : Option String) : String := given.getD "blog"

/-- Number of positions at which `pat` occurs as a substring of `s`. -/
def countOcc (pat s : List Char) : Nat :=
  ((List.range (s.length + 1)).filter (fun i => pat.isPrefixOf (s.drop i))).length

/-! ### Basic toolkit: substrings, prefixes, appends -/

theorem isPrefixOfEq {p s : List Char} : p.isPrefixOf s = true ↔ p <+: s :=
  List.isPrefixOf_iff_prefix

theorem containsSubIff (pat : List Char) :
    ∀ s : List Char, containsSub pat s = true ↔ pat <:+: s
  | [] => by
    simp only [containsSub, List.isEmpty_iff, List.infix_nil]
  | c :: rest => by
    simp only [containsSub, Bool.or_eq_true, isPrefixOfEq, containsSubIff pat rest,
      List.infix_cons_iff]

theorem prefixAppendSplit {l u v : List Char} (h : l <+: u ++ v) :
    l <+: u ∨ ∃ y, l = u ++ y ∧ y <+: v := by
  induction u generalizing l with
  | nil => exact Or.inr ⟨l, rfl, h⟩
  | cons c u' ih =>
    cases l with
    | nil => exact Or.inl (List.nil_prefix)
    | cons d l' =>
      rw [List.cons_append, List.cons_prefix_cons] at h
      obtain ⟨rfl, h'⟩ := h
      rcases ih h' with h1 | ⟨y, rfl, hy⟩
      · exact Or.inl (List.cons_prefix_cons.mpr ⟨rfl, h1⟩)
      · exact Or.inr ⟨y, rfl, hy⟩

theorem infixAppendSplit {l u v : List Char} (h : l <:+: u ++ v) :
    l <:+: u ∨ l <:+: v ∨
      ∃ x y, l = x ++ y ∧ x ≠ [] ∧ y ≠ [] ∧ x <:+ u ∧ y <+: v := by
  induction u generalizing l with
  | nil => exact Or.inr (Or.inl h)
  | cons c u' ih =>
    rw [List.cons_append, List.infix_cons_iff] at h
    rcases h with h | h
    · cases l with
      | nil => exact Or.inl (List.nil_infix)
      | cons d l' =>
        rw [List.cons_prefix_cons] at h
        obtain ⟨rfl, h'⟩ := h
        rcases prefixAppendSplit h' with h1 | ⟨y, rfl, hy⟩
        · exact Or.inl ((List.cons_prefix_cons.mpr ⟨rfl, h1⟩).isInfix)
        · cases y with
          | nil => exact Or.inl (by simp [List.infix_refl])
          | cons e y' =>
            exact Or.inr (Or.inr ⟨d :: u', e :: y', by simp, by simp, by simp,
              List.suffix_refl _, hy⟩)
    · rcases ih h with h1 | h1 | ⟨x, y, rfl, hx, hy, hxs, hyp⟩
      · exact Or.inl (List.infix_cons h1)
      · exact Or.inr (Or.inl h1)
      · exact Or.inr (Or.inr ⟨x, y, rfl, hx, hy, hxs.trans (List.suffix_cons c u'), hyp⟩)

theorem noInfixAppend {p u v : List Char} (hu : ¬p <:+: u) (hv : ¬p <:+: v)
    (hspan : ∀ x y, x ++ y = p → x ≠ [] → y ≠ [] → ¬(x <:+ u ∧ y <+: v)) :
    ¬p <:+: u ++ v := by
  intro h
  rcases infixAppendSplit h with h1 | h1 | ⟨x, y, rfl, hx, hy, hxs, hyp⟩
  · exact hu h1
  · exact hv h1
  · exact hspan x y rfl hx hy ⟨hxs, hyp⟩

theorem spanHeadMem {x y p u : List Char} (hxy : x ++ y = p) (hx : x ≠ [])
    (hs : x <:+ u) : ∃ a, p.head? = some a ∧ a ∈ u := by
  cases x with
  | nil => exact absurd rfl hx
  | cons a x' =>
    refine ⟨a, ?_, hs.subset (by simp)⟩
    rw [← hxy]; rfl

theorem spanUniformHead {x y p v : List Char} {c : Char} (hxy : x ++ y = p)
    (hy : y ≠ []) (hyp : y <+: v) (hall : ∀ a ∈ p, a = c) :
    v.head? = some c := by
  cases y with
  | nil => exact absurd rfl hy
  | cons a y' =>
    have ha : a = c := hall a (by rw [← hxy]; simp)
    rcases hyp with ⟨t, rfl⟩
    simp [ha]

/-! ### Properties of the single replacement passes -/

theorem repNL_pre : ∀ s q : List Char, '\n' ∉ q → q <+: repNL s → q <+: s := by
  intro s
  induction s using repNL.induct with
  | case1 rest ih =>
    intro q hq h
    simp only [repNL] at h
    cases q with
    | nil => exact List.nil_prefix
    | cons a q' =>
      rw [List.cons_prefix_cons] at h
      obtain ⟨rfl, -⟩ := h
      exact absurd (List.mem_cons_self _ _) hq
  | case2 c rest hne ih =>
    intro q hq h
    have e : repNL (c :: rest) = c :: repNL rest := by simp [repNL]
    rw [e] at h
    cases q with
    | nil => exact List.nil_prefix
    | cons a q' =>
      rw [List.cons_prefix_cons] at h ⊢
      exact ⟨h.1, ih q' (fun hm => hq (List.mem_cons_of_mem _ hm)) h.2⟩
  | case3 =>
    intro q hq h
    simpa only [repNL] using h

theorem repNL_sub : ∀ s q : List Char, '\n' ∉ q → q <:+: repNL s → q <:+: s := by
  intro s
  induction s using repNL.induct with
  | case1 rest ih =>
    intro q hq h
    simp only [repNL] at h
    rw [List.infix_cons_iff] at h
    rcases h with h | h
    · cases q with
      | nil => exact List.nil_infix
      | cons a q' =>
        rw [List.cons_prefix_cons] at h
        obtain ⟨rfl, -⟩ := h
        exact absurd (List.mem_cons_self _ _) hq
    · rw [List.infix_cons_iff] at h
      rcases h with h | h
      · cases q with
        | nil => exact List.nil_infix
        | cons a q' =>
          rw [List.cons_prefix_cons] at h
          obtain ⟨rfl, -⟩ := h
          exact absurd (List.mem_cons_self _ _) hq
      · exact List.infix_cons (List.infix_cons (List.infix_cons (ih q hq h)))
  | case2 c rest hne ih =>
    intro q hq h
    have e : repNL (c :: rest) = c :: repNL rest := by simp [repNL]
    rw [e, List.infix_cons_iff] at h
    rcases h with h | h
    · cases q with
      | nil => exact List.nil_infix
      | cons a q' =>
        rw [List.cons_prefix_cons] at h
        obtain ⟨rfl, h2⟩ := h
        have h3 : q' <+: rest :=
          repNL_pre rest q' (fun hm => hq (List.mem_cons_of_mem _ hm)) h2
        exact (List.cons_prefix_cons.mpr ⟨rfl, h3⟩).isInfix
    · exact List.infix_cons (ih q hq h)
  | case3 =>
    intro q hq h
    simpa only [repNL] using h

theorem repSP_pre : ∀ s q : List Char, ' ' ∉ q → q <+: repSP s → q <+: s := by
  intro s
  induction s using repSP.induct with
  | case1 rest ih =>
    intro q hq h
    simp only [repSP] at h
    cases q with
    | nil => exact List.nil_prefix
    | cons a q' =>
      rw [List.cons_prefix_cons] at h
      obtain ⟨rfl, -⟩ := h
      exact absurd (List.mem_cons_self _ _) hq
  | case2 c rest hne ih =>
    intro q hq h
    have e : repSP (c :: rest) = c :: repSP rest := by simp [repSP]
    rw [e] at h
    cases q with
    | nil => exact List.nil_prefix
    | cons a q' =>
      rw [List.cons_prefix_cons] at h ⊢
      exact ⟨h.1, ih q' (fun hm => hq (List.mem_cons_of_mem _ hm)) h.2⟩
  | case3 =>
    intro q hq h
    simpa only [repSP] using h

theorem repSP_sub : ∀ s q : List Char, ' ' ∉ q → q <:+: repSP s → q <:+: s := by
  intro s
  induction s using repSP.induct with
  | case1 rest ih =>
    intro q hq h
    simp only [repSP] at h
    rw [List.infix_cons_iff] at h
    rcases h with h | h
    · cases q with
      | nil => exact List.nil_infix
      | cons a q' =>
        rw [List.cons_prefix_cons] at h
        obtain ⟨rfl, -⟩ := h
        exact absurd (List.mem_cons_self _ _) hq
    · exact List.infix_cons (List.infix_cons (ih q hq h))
  | case2 c rest hne ih =>
    intro q hq h
    have e : repSP (c :: rest) = c :: repSP rest := by simp [repSP]
    rw [e, List.infix_cons_iff] at h
    rcases h with h | h
    · cases q with
      | nil => exact List.nil_infix
      | cons a q' =>
        rw [List.cons_prefix_cons] at h
        obtain ⟨rfl, h2⟩ := h
        have h3 : q' <+: rest :=
          repSP_pre rest q' (fun hm => hq (List.mem_cons_of_mem _ hm)) h2
        exact (List.cons_prefix_cons.mpr ⟨rfl, h3⟩).isInfix
    · exact List.infix_cons (ih q hq h)
  | case3 =>
    intro q hq h
    simpa only [repSP] using h

theorem repNL_length_le : ∀ s : List Char, (repNL s).length ≤ s.length := by
  intro s
  induction s using repNL.induct with
  | case1 rest ih => simp only [repNL, List.length_cons]; omega
  | case2 c rest hne ih =>
    have e : repNL (c :: rest) = c :: repNL rest := by simp [repNL]
    rw [e]; simp only [List.length_cons]; omega
  | case3 => simp [repNL]

theorem repNL_length_lt :
    ∀ s : List Char, containsSub nl3 s = true → (repNL s).length < s.length := by
  intro s
  induction s using repNL.induct with
  | case1 rest ih =>
    intro _
    have := repNL_length_le rest
    simp only [repNL, List.length_cons]; omega
  | case2 c rest hne ih =>
    intro h
    have e : repNL (c :: rest) = c :: repNL rest := by simp [repNL]
    have hrest : containsSub nl3 rest = true := by
      rcases (by simpa [containsSub] using h :
          nl3 <+: c :: rest ∨ containsSub nl3 rest = true) with h1 | h1
      · exfalso
        have h2 := h1
        rw [show nl3 = '\n' :: '\n' :: '\n' :: [] from rfl, List.cons_prefix_cons] at h2
        obtain ⟨rfl, h3⟩ := h2
        rcases h3 with ⟨t, ht⟩
        exact hne t rfl (by simpa using ht.symm)
      · exact h1
    have := ih hrest
    rw [e]; simp only [List.length_cons]; omega
  | case3 => intro h; exact absurd h (by decide)

theorem repSP_length_le : ∀ s : List Char, (repSP s).length ≤ s.length := by
  intro s
  induction s using repSP.induct with
  | case1 rest ih => simp only [repSP, List.length_cons]; omega
  | case2 c rest hne ih =>
    have e : repSP (c :: rest) = c :: repSP rest := by simp [repSP]
    rw [e]; simp only [List.length_cons]; omega
  | case3 => simp [repSP]

theorem repSP_length_lt :
    ∀ s : List Char, containsSub sp2 s = true → (repSP s).length < s.length := by
  intro s
  induction s using repSP.induct with
  | case1 rest ih =>
    intro _
    have := repSP_length_le rest
    simp only [repSP, List.length_cons]; omega
  | case2 c rest hne ih =>
    intro h
    have e : repSP (c :: rest) = c :: repSP rest := by simp [repSP]
    have hrest : containsSub sp2 rest = true := by
      rcases (by simpa [containsSub] using h :
          sp2 <+: c :: rest ∨ containsSub sp2 rest = true) with h1 | h1
      · exfalso
        have h2 := h1
        rw [show sp2 = ' ' :: ' ' :: [] from rfl, List.cons_prefix_cons] at h2
        obtain ⟨rfl, h3⟩ := h2
        rcases h3 with ⟨t, ht⟩
        exact hne t rfl (by simpa using ht.symm)
      · exact h1
    have := ih hrest
    rw [e]; simp only [List.length_cons]; omega
  | case3 => intro h; exact absurd h (by decide)

theorem repNL_ne_nil : ∀ s : List Char, s ≠ [] → repNL s ≠ [] := by
  intro s
  induction s using repNL.induct with
  | case1 rest ih => intro _; simp [repNL]
  | case2 c rest hne ih =>
    intro _
    have e : repNL (c :: rest) = c :: repNL rest := by simp [repNL]
    simp [e]
  | case3 => intro h; exact absurd rfl h

theorem repSP_ne_nil : ∀ s : List Char, s ≠ [] → repSP s ≠ [] := by
  intro s
  induction s using repSP.induct with
  | case1 rest ih => intro _; simp [repSP]
  | case2 c rest hne ih =>
    intro _
    have e : repSP (c :: rest) = c :: repSP rest := by simp [repSP]
    simp [e]
  | case3 => intro h; exact absurd rfl h

theorem repNL_head : ∀ s : List Char, ∀ c : Char, s.head? = some c →
    isPySpace c = false → (repNL s).head? = some c := by
  intro s
  induction s using repNL.induct with
  | case1 rest ih =>
    intro c hc hsp
    simp only [List.head?_cons, Option.some_inj] at hc
    subst hc
    simp [isPySpace] at hsp
  | case2 a rest hne ih =>
    intro c hc hsp
    have e : repNL (a :: rest) = a :: repNL rest := by simp [repNL]
    rw [e]
    simpa using hc
  | case3 => intro c hc _; simp at hc

theorem repSP_head : ∀ s : List Char, ∀ c : Char, s.head? = some c →
    isPySpace c = false → (repSP s).head? = some c := by
  intro s
  induction s using repSP.induct with
  | case1 rest ih =>
    intro c hc hsp
    simp only [List.head?_cons, Option.some_inj] at hc
    subst hc
    simp [isPySpace] at hsp
  | case2 a rest hne ih =>
    intro c hc hsp
    have e : repSP (a :: rest) = a :: repSP rest := by simp [repSP]
    rw [e]
    simpa using hc
  | case3 => intro c hc _; simp at hc

theorem getLastCons {l : List Char} (a : Char) (h : l ≠ []) :
    (a :: l).getLast? = l.getLast? := by
  cases l with
  | nil => exact absurd rfl h
  | cons b t => exact List.getLast?_cons_cons

theorem repNL_last : ∀ s : List Char, ∀ c : Char, s.getLast? = some c →
    isPySpace c = false → (repNL s).getLast? = some c := by
  intro s
  induction s using repNL.induct with
  | case1 rest ih =>
    intro c hc hsp
    by_cases hr : rest = []
    · subst hr
      simp at hc
      subst hc
      simp [isPySpace] at hsp
    · rw [getLastCons _ (by simp), getLastCons _ (by simp), getLastCons _ hr] at hc
      have hrep := ih c hc hsp
      simp only [repNL]
      rw [getLastCons _ (by simp), getLastCons _ (repNL_ne_nil rest hr)]
      exact hrep
  | case2 a rest hne ih =>
    intro c hc hsp
    have e : repNL (a :: rest) = a :: repNL rest := by simp [repNL]
    by_cases hr : rest = []
    · subst hr
      simp at hc
      subst hc
      simp [e, repNL]
    · rw [getLastCons _ hr] at hc
      rw [e, getLastCons _ (repNL_ne_nil rest hr)]
      exact ih c hc hsp
  | case3 => intro c hc _; simp at hc

theorem repSP_last : ∀ s : List Char, ∀ c : Char, s.getLast? = some c →
    isPySpace c = false → (repSP s).getLast? = some c := by
  intro s
  induction s using repSP.induct with
  | case1 rest ih =>
    intro c hc hsp
    by_cases hr : rest = []
    · subst hr
      simp at hc
      subst hc
      simp [isPySpace] at hsp
    · rw [getLastCons _ (by simp), getLastCons _ hr] at hc
      have hrep := ih c hc hsp
      simp only [repSP]
      rw [getLastCons _ (by exact repSP_ne_nil rest hr)]
      exact hrep
  | case2 a rest hne ih =>
    intro c hc hsp
    have e : repSP (a :: rest) = a :: repSP rest := by simp [repSP]
    by_cases hr : rest = []
    · subst hr
      simp at hc
      subst hc
      simp [e, repSP]
    · rw [getLastCons _ hr] at hc
      rw [e, getLastCons _ (repSP_ne_nil rest hr)]
      exact ih c hc hsp
  | case3 => intro c hc _; simp at hc

/-! ### The collapse loops -/

theorem collapseNL_no (fuel : Nat) :
    ∀ s : List Char, s.length ≤ fuel → ¬nl3 <:+: collapseNL fuel s := by
  induction fuel with
  | zero =>
    intro s hs
    have h0 : s = [] := List.length_eq_zero.mp (Nat.le_zero.mp hs)
    subst h0
    simp [collapseNL, List.infix_nil, nl3]
  | succ f ih =>
    intro s hs
    by_cases hg : containsSub nl3 s = true
    · rw [show collapseNL (f + 1) s = collapseNL f (repNL s) by simp [collapseNL, hg]]
      exact ih (repNL s) (by have := repNL_length_lt s hg; omega)
    · rw [show collapseNL (f + 1) s = s by simp [collapseNL, hg]]
      rw [← containsSubIff]
      simpa using hg

theorem collapseSP_no (fuel : Nat) :
    ∀ s : List Char, s.length ≤ fuel → ¬sp2 <:+: collapseSP fuel s := by
  induction fuel with
  | zero =>
    intro s hs
    have h0 : s = [] := List.length_eq_zero.mp (Nat.le_zero.mp hs)
    subst h0
    simp [collapseSP, List.infix_nil, sp2]
  | succ f ih =>
    intro s hs
    by_cases hg : containsSub sp2 s = true
    · rw [show collapseSP (f + 1) s = collapseSP f (repSP s) by simp [collapseSP, hg]]
      exact ih (repSP s) (by have := repSP_length_lt s hg; omega)
    · rw [show collapseSP (f + 1) s = s by simp [collapseSP, hg]]
      rw [← containsSubIff]
      simpa using hg

theorem collapseNL_avoid {q : List Char} (hq : '\n' ∉ q) (fuel : Nat) :
    ∀ s : List Char, ¬q <:+: s → ¬q <:+: collapseNL fuel s := by
  induction fuel with
  | zero => intro s hs; simpa [collapseNL] using hs
  | succ f ih =>
    intro s hs
    by_cases hg : containsSub nl3 s = true
    · rw [show collapseNL (f + 1) s = collapseNL f (repNL s) by simp [collapseNL, hg]]
      exact ih (repNL s) (fun h => hs (repNL_sub s q hq h))
    · rw [show collapseNL (f + 1) s = s by simp [collapseNL, hg]]
      exact hs

theorem collapseSP_avoid {q : List Char} (hq : ' ' ∉ q) (fuel : Nat) :
    ∀ s : List Char, ¬q <:+: s → ¬q <:+: collapseSP fuel s := by
  induction fuel with
  | zero => intro s hs; simpa [collapseSP] using hs
  | succ f ih =>
    intro s hs
    by_cases hg : containsSub sp2 s = true
    · rw [show collapseSP (f + 1) s = collapseSP f (repSP s) by simp [collapseSP, hg]]
      exact ih (repSP s) (fun h => hs (repSP_sub s q hq h))
    · rw [show collapseSP (f + 1) s = s by simp [collapseSP, hg]]
      exact hs

theorem collapseNL_head (fuel : Nat) :
    ∀ s : List Char, ∀ c : Char, s.head? = some c → isPySpace c = false →
      (collapseNL fuel s).head? = some c := by
  induction fuel with
  | zero => intro s c hc _; simpa [collapseNL] using hc
  | succ f ih =>
    intro s c hc hsp
    by_cases hg : containsSub nl3 s = true
    · rw [show collapseNL (f + 1) s = collapseNL f (repNL s) by simp [collapseNL, hg]]
      exact ih (repNL s) c (repNL_head s c hc hsp) hsp
    · rw [show collapseNL (f + 1) s = s by simp [collapseNL, hg]]
      exact hc

theorem collapseSP_head (fuel : Nat) :
    ∀ s : List Char, ∀ c : Char, s.head? = some c → isPySpace c = false →
      (collapseSP fuel s).head? = some c := by
  induction fuel with
  | zero => intro s c hc _; simpa [collapseSP] using hc
  | succ f ih =>
    intro s c hc hsp
    by_cases hg : containsSub sp2 s = true
    · rw [show collapseSP (f + 1) s = collapseSP f (repSP s) by simp [collapseSP, hg]]
      exact ih (repSP s) c (repSP_head s c hc hsp) hsp
    · rw [show collapseSP (f + 1) s = s by simp [collapseSP, hg]]
      exact hc

theorem collapseNL_last (fuel : Nat) :
    ∀ s : List Char, ∀ c : Char, s.getLast? = some c → isPySpace c = false →
      (collapseNL fuel s).getLast? = some c := by
  induction fuel with
  | zero => intro s c hc _; simpa [collapseNL] using hc
  | succ f ih =>
    intro s c hc hsp
    by_cases hg : containsSub nl3 s = true
    · rw [show collapseNL (f + 1) s = collapseNL f (repNL s) by simp [collapseNL, hg]]
      exact ih (repNL s) c (repNL_last s c hc hsp) hsp
    · rw [show collapseNL (f + 1) s = s by simp [collapseNL, hg]]
      exact hc

theorem collapseSP_last (fuel : Nat) :
    ∀ s : List Char, ∀ c : Char, s.getLast? = some c → isPySpace c = false →
      (collapseSP fuel s).getLast? = some c := by
  induction fuel with
  | zero => intro s c hc _; simpa [collapseSP] using hc
  | succ f ih =>
    intro s c hc hsp
    by_cases hg : containsSub sp2 s = true
    · rw [show collapseSP (f + 1) s = collapseSP f (repSP s) by simp [collapseSP, hg]]
      exact ih (repSP s) c (repSP_last s c hc hsp) hsp
    · rw [show collapseSP (f + 1) s = s by simp [collapseSP, hg]]
      exact hc

theorem collapseNL_eq_self {s : List Char} (h : ¬nl3 <:+: s) (fuel : Nat) :
    collapseNL fuel s = s := by
  cases fuel with
  | zero => rfl
  | succ f =>
    have hg : containsSub nl3 s = false := by
      rw [← Bool.not_eq_true, containsSubIff]; exact h
    simp [collapseNL, hg]

theorem collapseSP_eq_self {s : List Char} (h : ¬sp2 <:+: s) (fuel : Nat) :
    collapseSP fuel s = s := by
  cases fuel with
  | zero => rfl
  | succ f =>
    have hg : containsSub sp2 s = false := by
      rw [← Bool.not_eq_true, containsSubIff]; exact h
    simp [collapseSP, hg]

/-! ### Stripping -/

theorem dropWhileHead (p : Char → Bool) :
    ∀ l : List Char, ∀ c : Char, (l.dropWhile p).head? = some c → p c = false := by
  intro l
  induction l with
  | nil => intro c hc; simp at hc
  | cons a t ih =>
    intro c hc
    by_cases ha : p a = true
    · rw [List.dropWhile_cons_of_pos ha] at hc
      exact ih c hc
    · rw [List.dropWhile_cons_of_neg ha] at hc
      simp only [List.head?_cons, Option.some_inj] at hc
      subst hc
      simpa using ha

theorem dropWhileNoop (p : Char → Bool) (l : List Char)
    (h : ∀ c, l.head? = some c → p c = false) : l.dropWhile p = l := by
  cases l with
  | nil => rfl
  | cons a t =>
    have := h a rfl
    rw [List.dropWhile_cons_of_neg (by simp [this])]

theorem pyStrip_sub (s : List Char) : pyStrip s <:+: s := by
  have h1 : s.dropWhile isPySpace <:+ s := List.dropWhile_suffix isPySpace
  have h2 : pyStrip s <+: s.dropWhile isPySpace := by
    rw [pyStrip]
    rw [← List.reverse_suffix]
    simpa using List.dropWhile_suffix (l := (s.dropWhile isPySpace).reverse) isPySpace
  exact h2.isInfix.trans h1.isInfix

theorem prefixHead {p s : List Char} {c : Char} (h : p <+: s) (hc : p.head? = some c) :
    s.head? = some c := by
  rcases h with ⟨t, rfl⟩
  cases p with
  | nil => simp at hc
  | cons a q => simpa using hc

theorem pyStrip_head (s : List Char) (c : Char) (h : (pyStrip s).head? = some c) :
    isPySpace c = false := by
  have h2 : pyStrip s <+: s.dropWhile isPySpace := by
    rw [pyStrip]
    rw [← List.reverse_suffix]
    simpa using List.dropWhile_suffix (l := (s.dropWhile isPySpace).reverse) isPySpace
  exact dropWhileHead isPySpace s c (prefixHead h2 h)

theorem pyStrip_last (s : List Char) (c : Char) (h : (pyStrip s).getLast? = some c) :
    isPySpace c = false := by
  rw [pyStrip, List.getLast?_reverse] at h
  exact dropWhileHead isPySpace _ c h

theorem pyStrip_noop (s : List Char)
    (hh : ∀ c, s.head? = some c → isPySpace c = false)
    (hl : ∀ c, s.getLast? = some c → isPySpace c = false) : pyStrip s = s := by
  rw [pyStrip, dropWhileNoop isPySpace s hh, dropWhileNoop isPySpace s.reverse
    (fun c hc => hl c (by rwa [List.head?_reverse] at hc)), List.reverse_reverse]

/-! ### The artifact loop -/

theorem cutAt_pre (pat : List Char) : ∀ s : List Char, cutAt pat s <+: s := by
  intro s
  induction s using cutAt.induct pat with
  | case1 => simp [cutAt]
  | case2 c rest hmatch => simp [cutAt, hmatch, List.nil_prefix]
  | case3 c rest hmatch ih =>
    rw [show cutAt pat (c :: rest) = c :: cutAt pat rest by simp [cutAt, hmatch]]
    exact List.cons_prefix_cons.mpr ⟨rfl, ih⟩

theorem artifactStepPre (s pat : List Char) :
    (if containsSub pat s then cutAt pat s else s) <+: s := by
  split
  · exact cutAt_pre pat s
  · exact List.prefix_refl s

theorem artifactFoldPre :
    ∀ (pats : List (List Char)) (s : List Char),
      (pats.foldl (fun text art => if containsSub art text then cutAt art text else text) s)
        <+: s := by
  intro pats
  induction pats with
  | nil => intro s; exact List.prefix_refl s
  | cons p ps ih =>
    intro s
    rw [List.foldl_cons]
    exact (ih _).trans (artifactStepPre s p)

theorem removeArtifacts_pre (s : List Char) : removeArtifacts s <+: s :=
  artifactFoldPre artifacts s

theorem artifactFoldNoop :
    ∀ (pats : List (List Char)) (s : List Char), (∀ p ∈ pats, ¬p <:+: s) →
      pats.foldl (fun text art => if containsSub art text then cutAt art text else text) s
        = s := by
  intro pats
  induction pats with
  | nil => intro s _; rfl
  | cons p ps ih =>
    intro s h
    have hg : containsSub p s = false := by
      rw [← Bool.not_eq_true, containsSubIff]
      exact h p (by simp)
    rw [List.foldl_cons]
    simp only [hg, Bool.false_eq_true, if_false]
    exact ih s (fun q hq => h q (by simp [hq]))

theorem removeArtifacts_noop {s : List Char} (h : ∀ p ∈ artifacts, ¬p <:+: s) :
    removeArtifacts s = s :=
  artifactFoldNoop artifacts s h

/-! ### replaceFirst on a matching prefix -/

theorem replaceFirstDrop {pat : List Char} (s : List Char)
    (h : pat.isPrefixOf s = true) : replaceFirst pat [] s = s.drop pat.length := by
  cases s with
  | nil =>
    have : pat = [] := by
      cases pat with
      | nil => rfl
      | cons a t => simp [List.isPrefixOf] at h
    subst this
    rfl
  | cons c rest => simp [replaceFirst, h]

/-! ### The sentence trim -/

theorem sentenceTrim_pre (t : List Char) : sentenceTrim t <+: t := by
  rw [sentenceTrim]
  split
  · split
    · exact List.take_prefix _ t
    · exact List.prefix_refl t
  · exact List.prefix_refl t

/-! ### rfind -/

theorem rfindGet (c : Char) :
    ∀ s : List Char, ∀ i : Nat, rfind c s = (i : Int) → s[i]? = some c := by
  intro s
  induction s with
  | nil =>
    intro i h
    simp only [rfind] at h
    omega
  | cons a rest ih =>
    intro i h
    simp only [rfind] at h
    by_cases hr : 0 ≤ rfind c rest
    · rw [if_pos hr] at h
      obtain ⟨j, hj⟩ : ∃ j : Nat, rfind c rest = (j : Int) :=
        ⟨(rfind c rest).toNat, (Int.toNat_of_nonneg hr).symm⟩
      rw [hj] at h
      have hij : i = j + 1 := by omega
      subst hij
      simpa using ih j hj
    · rw [if_neg hr] at h
      by_cases hac : a = c
      · rw [if_pos hac] at h
        have hi0 : i = 0 := by omega
        subst hi0
        simp [hac]
      · rw [if_neg hac] at h
        omega

theorem rfindLast (c : Char) :
    ∀ s : List Char, ∀ j : Nat, rfind c s < (j : Int) → s[j]? ≠ some c := by
  intro s
  induction s with
  | nil => intro j _; simp
  | cons a rest ih =>
    intro j h
    simp only [rfind] at h
    by_cases hr : 0 ≤ rfind c rest
    · rw [if_pos hr] at h
      cases j with
      | zero => omega
      | succ j' =>
        intro hc
        exact ih j' (by omega) (by simpa using hc)
    · rw [if_neg hr] at h
      by_cases hac : a = c
      · rw [if_pos hac] at h
        cases j with
        | zero => omega
        | succ j' =>
          intro hc
          exact ih j' (by omega) (by simpa using hc)
      · rw [if_neg hac] at h
        cases j with
        | zero => simpa using hac
        | succ j' =>
          intro hc
          exact ih j' (by omega) (by simpa using hc)

theorem rfind_lt_length (c : Char) : ∀ s : List Char, rfind c s < (s.length : Int) := by
  intro s
  induction s with
  | nil => simp [rfind]
  | cons a rest ih =>
    simp only [rfind, List.length_cons]
    by_cases hr : 0 ≤ rfind c rest
    · rw [if_pos hr]; push_cast; omega
    · rw [if_neg hr]
      by_cases hac : a = c
      · rw [if_pos hac]; push_cast; omega
      · rw [if_neg hac]; push_cast; omega

/-! ### take -/

theorem prefixTake {p s : List Char} (h : p <+: s) {n : Nat} (hn : p.length ≤ n) :
    p <+: s.take n := by
  rcases h with ⟨t, rfl⟩
  rw [List.take_append_eq_append_take, List.take_of_length_le hn]
  exact ⟨t.take (n - p.length), rfl⟩

theorem takeGetLast {s : List Char} {i : Nat} {c : Char} (hi : i < s.length)
    (hc : s[i]? = some c) : (s.take (i + 1)).getLast? = some c := by
  rw [List.getLast?_eq_getElem?]
  have hlen : (s.take (i + 1)).length = i + 1 := by
    rw [List.length_take]
    omega
  rw [hlen]
  simp only [Nat.add_sub_cancel]
  rw [List.getElem?_take]
  simp [hc]

/-! ### Pipeline stage lemmas -/

theorem clean_output_eq (x : List Char) (t : String) :
    clean_output x t =
      pyStrip (sentenceTrim (dispatchFix t (removeArtifacts (cleanPre x)))) := rfl

theorem notSub {p u : List Char} (h : containsSub p u = false) : ¬p <:+: u := by
  intro h'
  rw [← containsSubIff] at h'
  simp [h'] at h

theorem avoidOfSub {q u v : List Char} (h : ¬q <:+: v) (hs : u <:+: v) : ¬q <:+: u :=
  fun h' => h (h'.trans hs)

theorem takeHead (s : List Char) (n : Nat) (hn : 1 ≤ n) :
    (s.take n).head? = s.head? := by
  cases s with
  | nil => simp
  | cons a t =>
    cases n with
    | zero => omega
    | succ m => simp

theorem cleanPre_noNL (x : List Char) : ¬nl3 <:+: cleanPre x := by
  rw [cleanPre]
  exact collapseSP_avoid (by decide) _ _
    (collapseNL_no _ _ (Nat.le_refl _))

theorem cleanPre_noSP (x : List Char) : ¬sp2 <:+: cleanPre x :=
  collapseSP_no _ _ (Nat.le_refl _)

theorem cleanPre_head (x : List Char) (c : Char) (h : (cleanPre x).head? = some c) :
    isPySpace c = false := by
  rcases h0 : (pyStrip x).head? with - | c0
  · have : pyStrip x = [] := List.head?_eq_none_iff.mp h0
    rw [cleanPre, this] at h
    simp [collapseNL, collapseSP] at h
  · have hsp0 : isPySpace c0 = false := pyStrip_head x c0 h0
    have h1 := collapseNL_head (pyStrip x).length (pyStrip x) c0 h0 hsp0
    have h2 := collapseSP_head (collapseNL (pyStrip x).length (pyStrip x)).length
      (collapseNL (pyStrip x).length (pyStrip x)) c0 h1 hsp0
    rw [cleanPre] at h
    rw [h2] at h
    cases h
    exact hsp0

theorem cleanPre_last (x : List Char) (c : Char) (h : (cleanPre x).getLast? = some c) :
    isPySpace c = false := by
  rcases h0 : (pyStrip x).getLast? with - | c0
  · have : pyStrip x = [] := by
      cases hx : pyStrip x with
      | nil => rfl
      | cons a t => rw [hx] at h0; simp [List.getLast?_eq_getElem?] at h0
    rw [cleanPre, this] at h
    simp [collapseNL, collapseSP] at h
  · have hsp0 : isPySpace c0 = false := pyStrip_last x c0 h0
    have h1 := collapseNL_last (pyStrip x).length (pyStrip x) c0 h0 hsp0
    have h2 := collapseSP_last (collapseNL (pyStrip x).length (pyStrip x)).length
      (collapseNL (pyStrip x).length (pyStrip x)) c0 h1 hsp0
    rw [cleanPre] at h
    rw [h2] at h
    cases h
    exact hsp0

theorem cleanPre_avoid {q : List Char} (hnl : '\n' ∉ q) (hsp : ' ' ∉ q)
    (x : List Char) (h : ¬q <:+: x) : ¬q <:+: cleanPre x := by
  rw [cleanPre]
  exact collapseSP_avoid hsp _ _
    (collapseNL_avoid hnl _ _ (avoidOfSub h (pyStrip_sub x)))

theorem artifactChars : ∀ p ∈ artifacts, '\n' ∉ p ∧ ' ' ∉ p := by decide

/-! ### Fix-up lemmas -/

theorem fixEmail_noNL {s : List Char} (h : ¬nl3 <:+: s)
    (hh : ∀ c, s.head? = some c → isPySpace c = false) : ¬nl3 <:+: fixEmail s := by
  rw [fixEmail]
  split
  · exact h
  · refine noInfixAppend (notSub (by decide)) h ?_
    rintro a b hab ha hb ⟨-, hbp⟩
    have := spanUniformHead hab hb hbp (c := '\n') (by decide)
    have := hh '\n' this
    simp [isPySpace] at this

theorem fixEmail_noSP {s : List Char} (h : ¬sp2 <:+: s)
    (hh : ∀ c, s.head? = some c → isPySpace c = false) : ¬sp2 <:+: fixEmail s := by
  rw [fixEmail]
  split
  · exact h
  · refine noInfixAppend (notSub (by decide)) h ?_
    rintro a b hab ha hb ⟨-, hbp⟩
    have := spanUniformHead hab hb hbp (c := ' ') (by decide)
    have := hh ' ' this
    simp [isPySpace] at this

theorem fixVideo_noNL {s : List Char} (h : ¬nl3 <:+: s)
    (hh : ∀ c, s.head? = some c → isPySpace c = false) : ¬nl3 <:+: fixVideo s := by
  rw [fixVideo]
  split
  · refine noInfixAppend (notSub (by decide)) h ?_
    rintro a b hab ha hb ⟨-, hbp⟩
    have := spanUniformHead hab hb hbp (c := '\n') (by decide)
    have := hh '\n' this
    simp [isPySpace] at this
  · exact h

theorem fixVideo_noSP {s : List Char} (h : ¬sp2 <:+: s)
    (hh : ∀ c, s.head? = some c → isPySpace c = false) : ¬sp2 <:+: fixVideo s := by
  rw [fixVideo]
  split
  · refine noInfixAppend (notSub (by decide)) h ?_
    rintro a b hab ha hb ⟨-, hbp⟩
    have := spanUniformHead hab hb hbp (c := ' ') (by decide)
    have := hh ' ' this
    simp [isPySpace] at this
  · exact h

theorem fixSummarize_noNL {s : List Char} (h : ¬nl3 <:+: s) :
    ¬nl3 <:+: fixSummarize s := by
  rw [fixSummarize]
  split
  case isTrue hpre =>
    rw [replaceFirstDrop s hpre]
    exact avoidOfSub (avoidOfSub h (List.drop_suffix _ _).isInfix) (pyStrip_sub _)
  case isFalse => exact h

theorem fixSummarize_noSP {s : List Char} (h : ¬sp2 <:+: s) :
    ¬sp2 <:+: fixSummarize s := by
  rw [fixSummarize]
  split
  case isTrue hpre =>
    rw [replaceFirstDrop s hpre]
    exact avoidOfSub (avoidOfSub h (List.drop_suffix _ _).isInfix) (pyStrip_sub _)
  case isFalse => exact h

theorem dispatchFix_noNL {s : List Char} (t : String) (h : ¬nl3 <:+: s)
    (hh : ∀ c, s.head? = some c → isPySpace c = false) :
    ¬nl3 <:+: dispatchFix t s := by
  rw [dispatchFix]
  split
  · exact fixEmail_noNL h hh
  · split
    · exact fixVideo_noNL h hh
    · split
      · exact fixSummarize_noNL h
      · exact h

theorem dispatchFix_noSP {s : List Char} (t : String) (h : ¬sp2 <:+: s)
    (hh : ∀ c, s.head? = some c → isPySpace c = false) :
    ¬sp2 <:+: dispatchFix t s := by
  rw [dispatchFix]
  split
  · exact fixEmail_noSP h hh
  · split
    · exact fixVideo_noSP h hh
    · split
      · exact fixSummarize_noSP h
      · exact h

theorem fixEmail_head {s : List Char}
    (hh : ∀ c, s.head? = some c → isPySpace c = false) :
    ∀ c, (fixEmail s).head? = some c → isPySpace c = false := by
  intro c hc
  rw [fixEmail] at hc
  split at hc
  · exact hh c hc
  · rw [show (subjectLine ++ s).head? = some 'S' from rfl] at hc
    cases hc
    decide

theorem fixVideo_head {s : List Char}
    (hh : ∀ c, s.head? = some c → isPySpace c = false) :
    ∀ c, (fixVideo s).head? = some c → isPySpace c = false := by
  intro c hc
  rw [fixVideo] at hc
  split at hc
  · rw [show (openingHookLine ++ s).head? = some '[' from rfl] at hc
    cases hc
    decide
  · exact hh c hc

theorem fixSummarize_head {s : List Char}
    (hh : ∀ c, s.head? = some c → isPySpace c = false) :
    ∀ c, (fixSummarize s).head? = some c → isPySpace c = false := by
  intro c hc
  rw [fixSummarize] at hc
  split at hc
  · exact pyStrip_head _ c hc
  · exact hh c hc

theorem dispatchFix_head {s : List Char} (t : String)
    (hh : ∀ c, s.head? = some c → isPySpace c = false) :
    ∀ c, (dispatchFix t s).head? = some c → isPySpace c = false := by
  intro c hc
  rw [dispatchFix] at hc
  split at hc
  · exact fixEmail_head hh c hc
  · split at hc
    · exact fixVideo_head hh c hc
    · split at hc
      · exact fixSummarize_head hh c hc
      · exact hh c hc

theorem artNotInSubject : ∀ p ∈ artifacts, containsSub p subjectLine = false := by decide

theorem artHeads : ∀ p ∈ artifacts, p.head? = some '[' ∨ p.head? = some '<' := by decide

theorem fixEmail_art {s : List Char} (h : ∀ p ∈ artifacts, ¬p <:+: s) :
    ∀ p ∈ artifacts, ¬p <:+: fixEmail s := by
  intro p hp
  rw [fixEmail]
  split
  · exact h p hp
  · refine noInfixAppend (notSub (artNotInSubject p hp)) (h p hp) ?_
    rintro a b hab ha hb ⟨has, -⟩
    obtain ⟨d, hd, hdm⟩ := spanHeadMem hab ha has
    rcases artHeads p hp with h1 | h1
    · rw [h1] at hd
      obtain rfl := Option.some_inj.mp hd
      revert hdm
      decide
    · rw [h1] at hd
      obtain rfl := Option.some_inj.mp hd
      revert hdm
      decide

theorem fixEmail_last {s : List Char} (hne : s ≠ []) :
    (fixEmail s).getLast? = s.getLast? := by
  rw [fixEmail]
  split
  · rfl
  · exact List.getLast?_append_of_ne_nil _ hne

theorem fixEmail_subject (s : List Char) : subjectLabel <+: fixEmail s := by
  rw [fixEmail]
  split
  case isTrue h => exact isPrefixOfEq.mp h
  case isFalse =>
    exact (isPrefixOfEq.mp (by decide) :
      subjectLabel <+: subjectLine).trans (List.prefix_append subjectLine s)

theorem fixEmail_noop {y : List Char} (h : subjectLabel <+: y) : fixEmail y = y := by
  rw [fixEmail, if_pos (isPrefixOfEq.mpr h)]

theorem dispatchFix_other {t : String} (h1 : t ≠ "email") (h2 : t ≠ "video")
    (h3 : t ≠ "summarize") (y : List Char) : dispatchFix t y = y := by
  rw [dispatchFix, if_neg h1, if_neg h2, if_neg h3]

theorem cleanPre_noop {y : List Char} (h0 : pyStrip y = y) (h1 : ¬nl3 <:+: y)
    (h2 : ¬sp2 <:+: y) : cleanPre y = y := by
  rw [show cleanPre y =
      collapseSP (collapseNL (pyStrip y).length (pyStrip y)).length
        (collapseNL (pyStrip y).length (pyStrip y)) from rfl]
  rw [h0, collapseNL_eq_self h1, collapseSP_eq_self h2]

/-! ### The floating-point threshold -/

theorem roundNearEven_err (x sh : Nat) :
    2 * (roundNearEven x sh * 2 ^ sh) ≤ 2 * x + 2 ^ sh ∧
    2 * x ≤ 2 * (roundNearEven x sh * 2 ^ sh) + 2 ^ sh := by
  have h1 : 2 ^ sh * (x / 2 ^ sh) + x % 2 ^ sh = x := Nat.div_add_mod x (2 ^ sh)
  have h2 : x % 2 ^ sh < 2 ^ sh := Nat.mod_lt _ (by positivity)
  have h3 : (x / 2 ^ sh + 1) * 2 ^ sh = x / 2 ^ sh * 2 ^ sh + 2 ^ sh := by ring
  have h4 : x / 2 ^ sh * 2 ^ sh + x % 2 ^ sh = x := by rw [mul_comm]; exact h1
  rw [roundNearEven]
  split
  · omega
  · split
    · rw [h3]; omega
    · split
      · omega
      · rw [h3]; omega

theorem log2Fuel_spec :
    ∀ fuel n : Nat, 1 ≤ n → n ≤ fuel →
      2 ^ log2Fuel fuel n ≤ n ∧ n < 2 ^ (log2Fuel fuel n + 1) := by
  intro fuel
  induction fuel with
  | zero => intro n h1 h2; omega
  | succ f ih =>
    intro n h1 h2
    rw [log2Fuel]
    split
    case isTrue hn =>
      have hdiv1 : 1 ≤ n / 2 := by omega
      have hdiv2 : n / 2 ≤ f := by omega
      obtain ⟨ha, hb⟩ := ih (n / 2) hdiv1 hdiv2
      rw [pow_succ, pow_succ]
      set A := 2 ^ log2Fuel f (n / 2)
      omega
    case isFalse hn =>
      simp only [pow_zero, pow_one]
      omega

theorem floatMul07Num_err (len : Nat) :
    ∃ P : Nat,
      2 * floatMul07Num len ≤ 2 * (len * 6305039478318694) + P ∧
      2 * (len * 6305039478318694) ≤ 2 * floatMul07Num len + P ∧
      P * 2 ^ 52 ≤ 2 * (len * 6305039478318694) := by
  rw [floatMul07Num]
  split
  · exact ⟨0, by omega, by omega, by omega⟩
  case isFalse h =>
    refine ⟨2 ^ (log2Fuel (len * 6305039478318694) (len * 6305039478318694) - 52),
      (roundNearEven_err _ _).1, (roundNearEven_err _ _).2, ?_⟩
    have hx1 : 1 ≤ len * 6305039478318694 := by omega
    obtain ⟨hlow, hhigh⟩ :=
      log2Fuel_spec (len * 6305039478318694) (len * 6305039478318694) hx1
        (Nat.le_refl _)
    have h53 : 52 ≤ log2Fuel (len * 6305039478318694) (len * 6305039478318694) := by
      by_contra hcon
      push_neg at hcon
      have hmono : (2 : Nat)
          ^ (log2Fuel (len * 6305039478318694) (len * 6305039478318694) + 1)
          ≤ 2 ^ 53 :=
        Nat.pow_le_pow_right (by norm_num) (by omega)
      omega
    have hsplit : 2 ^ (log2Fuel (len * 6305039478318694) (len * 6305039478318694) - 52)
          * 2 ^ 52
        = 2 ^ log2Fuel (len * 6305039478318694) (len * 6305039478318694) := by
      rw [← pow_add]
      congr 1
      omega
    omega

theorem floatMul07Num_big {len : Nat} (h : 101 ≤ len) :
    70 * 2 ^ 53 < floatMul07Num len := by
  obtain ⟨P, hP1, hP2, hP3⟩ := floatMul07Num_err len
  have hx : 101 * 6305039478318694 ≤ len * 6305039478318694 :=
    Nat.mul_le_mul_right _ h
  have hP2' : 2 * (len * 6305039478318694) * 2 ^ 52
      ≤ (2 * floatMul07Num len + P) * 2 ^ 52 :=
    Nat.mul_le_mul_right _ hP2
  have hkey : 140 * 2 ^ 105 < 2 * (101 * 6305039478318694) * 2 ^ 52
      - 2 * (101 * 6305039478318694) := by norm_num
  have hmono : 2 * (101 * 6305039478318694) * 2 ^ 52
      ≤ 2 * (len * 6305039478318694) * 2 ^ 52 := by
    exact Nat.mul_le_mul_right _ (by omega)
  -- (2F + P) * 2^52 = 2F*2^52 + P*2^52 ≤ 2F*2^52 + 2x
  have hdistrib : (2 * floatMul07Num len + P) * 2 ^ 52
      = 2 * floatMul07Num len * 2 ^ 52 + P * 2 ^ 52 := by ring
  omega

theorem pyFloatGt07_agrees {lp : Int} {len : Nat} (h1 : 1 ≤ len)
    (h2 : len ≤ 2 ^ 48) (h3 : len % 10 ≠ 0) :
    pyFloatGt07 lp len = true ↔ 7 * (len : Int) < 10 * lp := by
  rw [pyFloatGt07, decide_eq_true_iff]
  obtain ⟨P, hP1, hP2, hP3⟩ := floatMul07Num_err len
  set X := len * 6305039478318694 with hX
  have hid : 10 * X + 4 * len = 7 * len * 2 ^ 53 := by rw [hX]; ring
  have hPb : P < 3 * len := by
    have hstrict : 2 * X < 3 * len * 2 ^ 52 := by
      rw [hX]
      calc 2 * (len * 6305039478318694) = len * 12610078956637388 := by ring
        _ < len * 13510798882111488 :=
          mul_lt_mul_of_pos_left (by norm_num) (by omega)
        _ = 3 * len * 2 ^ 52 := by ring
    omega
  have hF0 : (0 : Int) ≤ (floatMul07Num len : Int) := Int.natCast_nonneg _
  have hlen0 : (0 : Int) ≤ (len : Int) := Int.natCast_nonneg _
  rcases lt_trichotomy lp 0 with hneg | rfl | hpos
  · constructor
    · intro hlt
      exfalso
      omega
    · intro hlt
      exfalso
      have h1' : (1 : Int) ≤ (len : Int) := by exact_mod_cast h1
      omega
  · constructor
    · intro hlt
      exfalso
      omega
    · intro hlt
      exfalso
      have h1' : (1 : Int) ≤ (len : Int) := by exact_mod_cast h1
      omega
  · obtain ⟨n, rfl⟩ : ∃ n : Nat, lp = (n : Int) :=
      ⟨lp.toNat, (Int.toNat_of_nonneg (by omega)).symm⟩
    have h7 : (7 * len) % 10 ≠ 0 := by omega
    constructor
    · intro h
      have hN : floatMul07Num len < n * 2 ^ 53 := by exact_mod_cast h
      have goalN : 7 * len < 10 * n := by
        by_contra hcon
        push_neg at hcon
        have hd : 10 * n + 1 ≤ 7 * len := by omega
        have hc1 : 10 * floatMul07Num len + 10 ≤ 10 * (n * 2 ^ 53) := by omega
        have hc2 : 10 * n * 2 ^ 53 + 2 ^ 53 ≤ 7 * len * 2 ^ 53 :=
          calc 10 * n * 2 ^ 53 + 2 ^ 53 = (10 * n + 1) * 2 ^ 53 := by ring
            _ ≤ 7 * len * 2 ^ 53 := Nat.mul_le_mul_right _ hd
        have hc3 : 10 * X ≤ 10 * floatMul07Num len + 5 * P := by omega
        omega
      exact_mod_cast goalN
    · intro h
      have hN : 7 * len < 10 * n := by exact_mod_cast h
      have hc2 : 7 * len * 2 ^ 53 + 2 ^ 53 ≤ 10 * n * 2 ^ 53 :=
        calc 7 * len * 2 ^ 53 + 2 ^ 53 = (7 * len + 1) * 2 ^ 53 := by ring
          _ ≤ 10 * n * 2 ^ 53 := Nat.mul_le_mul_right _ hN
      have hc3 : 10 * floatMul07Num len ≤ 10 * X + 5 * P := by omega
      have hgoal : floatMul07Num len < n * 2 ^ 53 := by omega
      exact_mod_cast hgoal

/-! ### Stability of a fully cleaned text -/

theorem finishTrim {s4 : List Char} {i : Nat} {c : Char}
    (h4h : ∀ c', s4.head? = some c' → isPySpace c' = false)
    (h71 : 71 ≤ i) (hio : i < s4.length) (hc : s4[i]? = some c)
    (hcont : endPunct.contains c = true) (hcs : isPySpace c = false) :
    pyStrip (s4.take (i + 1)) = s4.take (i + 1) ∧
    sentenceTrim (s4.take (i + 1)) = s4.take (i + 1) ∧
    (∀ c', (s4.take (i + 1)).head? = some c' → isPySpace c' = false) ∧
    (∀ c', (s4.take (i + 1)).getLast? = some c' → isPySpace c' = false) ∧
    (∀ q : List Char, q <+: s4 → q.length ≤ 72 → q <+: s4.take (i + 1)) := by
  have hl := takeGetLast hio hc
  have hh : ∀ c', (s4.take (i + 1)).head? = some c' → isPySpace c' = false := by
    intro c' h'
    rw [takeHead s4 (i + 1) (by omega)] at h'
    exact h4h c' h'
  have hlOk : ∀ c', (s4.take (i + 1)).getLast? = some c' → isPySpace c' = false := by
    intro c' h'
    rw [hl] at h'
    cases h'
    exact hcs
  have etrim : sentenceTrim (s4.take (i + 1)) = s4.take (i + 1) := by
    rw [sentenceTrim]
    have hlast : lastChar (s4.take (i + 1)) = c := by rw [lastChar, hl]; rfl
    rw [hlast, hcont]
    simp
  exact ⟨pyStrip_noop _ hh hlOk, etrim, hh, hlOk,
    fun q hq hq72 => prefixTake hq (by omega)⟩

theorem cleanedStable {s4 : List Char}
    (h4h : ∀ c, s4.head? = some c → isPySpace c = false)
    (h4l : ∀ c, s4.getLast? = some c → isPySpace c = false) :
    pyStrip (sentenceTrim s4) = sentenceTrim s4 ∧
    sentenceTrim (sentenceTrim s4) = sentenceTrim s4 ∧
    (∀ c, (sentenceTrim s4).head? = some c → isPySpace c = false) ∧
    (∀ c, (sentenceTrim s4).getLast? = some c → isPySpace c = false) ∧
    (∀ q : List Char, q <+: s4 → q.length ≤ 72 → q <+: sentenceTrim s4) := by
  by_cases houter : (100 < s4.length && !endPunct.contains (lastChar s4)) = true
  case neg =>
    have e : sentenceTrim s4 = s4 := by rw [sentenceTrim, if_neg houter]
    rw [e]
    exact ⟨pyStrip_noop _ h4h h4l, e ▸ e, h4h, h4l, fun q hq _ => hq⟩
  case pos =>
    by_cases hinner : pyFloatGt07 (lastPeriod s4) s4.length = true
    case neg =>
      have e : sentenceTrim s4 = s4 := by rw [sentenceTrim, if_pos houter, if_neg hinner]
      rw [e]
      exact ⟨pyStrip_noop _ h4h h4l, e ▸ e, h4h, h4l, fun q hq _ => hq⟩
    case pos =>
      have e : sentenceTrim s4 = s4.take ((lastPeriod s4 + 1).toNat) := by
        rw [sentenceTrim, if_pos houter, if_pos hinner]
      have hlen : 100 < s4.length := by
        rw [Bool.and_eq_true] at houter
        exact of_decide_eq_true houter.1
      have hgt : (floatMul07Num s4.length : Int) < lastPeriod s4 * 2 ^ 53 := by
        rw [pyFloatGt07, decide_eq_true_iff] at hinner
        exact hinner
      have hbigN : 70 * 2 ^ 53 < floatMul07Num s4.length :=
        floatMul07Num_big (by omega)
      have hbig : (70 * 2 ^ 53 : Int) < (floatMul07Num s4.length : Int) := by
        exact_mod_cast hbigN
      have hplt : lastPeriod s4 < (s4.length : Int) := by
        rw [lastPeriod]
        exact max_lt (rfind_lt_length '.' s4)
          (max_lt (rfind_lt_length '!' s4) (rfind_lt_length '?' s4))
      have hp71 : (71 : Int) ≤ lastPeriod s4 := by omega
      obtain ⟨i, hi⟩ : ∃ i : Nat, lastPeriod s4 = (i : Int) :=
        ⟨(lastPeriod s4).toNat, by omega⟩
      have hio : i < s4.length := by omega
      have h71 : 71 ≤ i := by omega
      have hnat : (lastPeriod s4 + 1).toNat = i + 1 := by omega
      rw [e, hnat]
      have hmax : lastPeriod s4 = rfind '.' s4 ∨ lastPeriod s4 = rfind '!' s4 ∨
          lastPeriod s4 = rfind '?' s4 := by
        rw [lastPeriod]
        rcases max_choice (rfind '.' s4) (max (rfind '!' s4) (rfind '?' s4)) with hm | hm
        · exact Or.inl hm
        · rcases max_choice (rfind '!' s4) (rfind '?' s4) with hm2 | hm2
          · exact Or.inr (Or.inl (hm.trans hm2))
          · exact Or.inr (Or.inr (hm.trans hm2))
      rcases hmax with hm | hm | hm
      · exact finishTrim h4h h71 hio (rfindGet '.' s4 i (hm.symm.trans hi))
          (by decide) (by decide)
      · exact finishTrim h4h h71 hio (rfindGet '!' s4 i (hm.symm.trans hi))
          (by decide) (by decide)
      · exact finishTrim h4h h71 hio (rfindGet '?' s4 i (hm.symm.trans hi))
          (by decide) (by decide)

/-! ### Assembled pipeline facts -/

theorem clean_nil {t : String} (h1 : t ≠ "email") (h2 : t ≠ "video")
    (h3 : t ≠ "summarize") : clean_output [] t = [] := by
  rw [clean_output_eq, show cleanPre [] = [] from rfl,
    show removeArtifacts [] = [] from rfl, dispatchFix_other h1 h2 h3,
    show sentenceTrim [] = [] from rfl, show pyStrip [] = [] from rfl]

theorem cleanNoPatterns (x : List Char) (t : String) :
    ¬nl3 <:+: clean_output x t ∧ ¬sp2 <:+: clean_output x t := by
  rw [clean_output_eq]
  have hs2nl := cleanPre_noNL x
  have hs2sp := cleanPre_noSP x
  have hs3pre : removeArtifacts (cleanPre x) <+: cleanPre x := removeArtifacts_pre _
  have hs3nl : ¬nl3 <:+: removeArtifacts (cleanPre x) := avoidOfSub hs2nl hs3pre.isInfix
  have hs3sp : ¬sp2 <:+: removeArtifacts (cleanPre x) := avoidOfSub hs2sp hs3pre.isInfix
  have hs3h : ∀ c, (removeArtifacts (cleanPre x)).head? = some c → isPySpace c = false :=
    fun c hc => cleanPre_head x c (prefixHead hs3pre hc)
  have hs4nl := dispatchFix_noNL t hs3nl hs3h
  have hs4sp := dispatchFix_noSP t hs3sp hs3h
  have hs5pre := sentenceTrim_pre (dispatchFix t (removeArtifacts (cleanPre x)))
  exact ⟨avoidOfSub (avoidOfSub hs4nl hs5pre.isInfix) (pyStrip_sub _),
    avoidOfSub (avoidOfSub hs4sp hs5pre.isInfix) (pyStrip_sub _)⟩

theorem cleanFixed {x : List Char} {t : String} (ht1 : t ≠ "summarize")
    (ht2 : t ≠ "video") (hart : ∀ p ∈ artifacts, ¬p <:+: x) :
    clean_output (clean_output x t) t = clean_output x t := by
  have hs2nl := cleanPre_noNL x
  have hs2sp := cleanPre_noSP x
  have hs2h := cleanPre_head x
  have hs2l := cleanPre_last x
  have hs2art : ∀ p ∈ artifacts, ¬p <:+: cleanPre x := fun p hp =>
    cleanPre_avoid (artifactChars p hp).1 (artifactChars p hp).2 x (hart p hp)
  have e3 : removeArtifacts (cleanPre x) = cleanPre x := removeArtifacts_noop hs2art
  by_cases hte : t = "email"
  · subst hte
    by_cases h2nil : cleanPre x = []
    · rw [show clean_output x "email" =
          pyStrip (sentenceTrim (dispatchFix "email" (removeArtifacts (cleanPre x))))
          from rfl, h2nil]
      decide
    · have e4 : dispatchFix "email" (cleanPre x) = fixEmail (cleanPre x) := by
        rw [dispatchFix, if_pos rfl]
      have h4h := fixEmail_head hs2h
      have h4l : ∀ c, (fixEmail (cleanPre x)).getLast? = some c → isPySpace c = false := by
        intro c hc
        rw [fixEmail_last h2nil] at hc
        exact hs2l c hc
      have h4nl := fixEmail_noNL hs2nl hs2h
      have h4sp := fixEmail_noSP hs2sp hs2h
      have h4art := fixEmail_art hs2art
      have h4subj := fixEmail_subject (cleanPre x)
      obtain ⟨ha, hb, hcH, hdL, he⟩ := cleanedStable h4h h4l
      have e1 : clean_output x "email" = sentenceTrim (fixEmail (cleanPre x)) := by
        rw [clean_output_eq, e3, e4, ha]
      rw [e1, clean_output_eq]
      have hynl : ¬nl3 <:+: sentenceTrim (fixEmail (cleanPre x)) :=
        avoidOfSub h4nl (sentenceTrim_pre _).isInfix
      have hysp : ¬sp2 <:+: sentenceTrim (fixEmail (cleanPre x)) :=
        avoidOfSub h4sp (sentenceTrim_pre _).isInfix
      have hyart : ∀ p ∈ artifacts, ¬p <:+: sentenceTrim (fixEmail (cleanPre x)) :=
        fun p hp => avoidOfSub (h4art p hp) (sentenceTrim_pre _).isInfix
      rw [cleanPre_noop ha hynl hysp, removeArtifacts_noop hyart,
        show dispatchFix "email" (sentenceTrim (fixEmail (cleanPre x))) =
          fixEmail (sentenceTrim (fixEmail (cleanPre x))) from by rw [dispatchFix, if_pos rfl],
        fixEmail_noop (he subjectLabel h4subj (by decide)), hb, ha]
  · have e4 : dispatchFix t (cleanPre x) = cleanPre x := dispatchFix_other hte ht2 ht1 _
    by_cases h2nil : cleanPre x = []
    · rw [show clean_output x t =
          pyStrip (sentenceTrim (dispatchFix t (removeArtifacts (cleanPre x))))
          from rfl, h2nil, show removeArtifacts [] = [] from rfl,
        dispatchFix_other hte ht2 ht1, show sentenceTrim [] = [] from rfl,
        show pyStrip [] = [] from rfl]
      exact clean_nil hte ht2 ht1
    · obtain ⟨ha, hb, hcH, hdL, he⟩ := cleanedStable hs2h hs2l
      have e1 : clean_output x t = sentenceTrim (cleanPre x) := by
        rw [clean_output_eq, e3, e4, ha]
      rw [e1, clean_output_eq]
      have hynl : ¬nl3 <:+: sentenceTrim (cleanPre x) :=
        avoidOfSub hs2nl (sentenceTrim_pre _).isInfix
      have hysp : ¬sp2 <:+: sentenceTrim (cleanPre x) :=
        avoidOfSub hs2sp (sentenceTrim_pre _).isInfix
      have hyart : ∀ p ∈ artifacts, ¬p <:+: sentenceTrim (cleanPre x) :=
        fun p hp => avoidOfSub (hs2art p hp) (sentenceTrim_pre _).isInfix
      rw [cleanPre_noop ha hynl hysp, removeArtifacts_noop hyart,
        dispatchFix_other hte ht2 ht1, hb, ha]

/-! ### add_context -/

theorem splitNl2_single : ∀ base : List Char, ¬nl2 <:+: base → splitNl2 base = [base] := by
  intro base
  induction base using splitNl2.induct with
  | case1 => intro _; rfl
  | case2 rest ih =>
    intro h
    exact absurd ⟨[], rest, rfl⟩ h
  | case3 c rest hne hh tt hsplit ih =>
    intro h
    have hr := ih (fun hsub => h (List.infix_cons hsub))
    simp [splitNl2, hr]
  | case4 c rest hne hsplit ih =>
    intro h
    have hr := ih (fun hsub => h (List.infix_cons hsub))
    rw [hr] at hsplit
    cases hsplit

theorem addContextToBase_single {base : List Char} (h : ¬nl2 <:+: base)
    (ctx : List Char) : addContextToBase base ctx = base := by
  rw [addContextToBase]
  split
  · rw [if_neg]
    rw [splitNl2_single base h]
    simp
  · rfl

/-! ### The claims -/

/-- Claim C1, counterexample: `clean_output` is not idempotent.  Three
failures: (a) type `summarize` with `"Summary:Summary: The cat sat."` — the
fix-up removes one label per pass; (b) type `video` with a 147-character text
whose only `[Hook]` marker sits after the last period, so the sentence trim
removes it and the second pass prepends `[Opening Hook]`; (c) type `content`
with an artifact cut that leaves trailing whitespace before the sentence trim,
so the second pass trims at a period the first pass rejected. -/
theorem c1_clean_output_not_idempotent :
    clean_output (clean_output "Summary:Summary: The cat sat.".toList "summarize")
        "summarize"
      ≠ clean_output "Summary:Summary: The cat sat.".toList "summarize" ∧
    clean_output (clean_output
        (List.replicate 120 'a' ++ '.' :: (List.replicate 20 'b' ++ "[Hook]".toList))
        "video") "video"
      ≠ clean_output
        (List.replicate 120 'a' ++ '.' :: (List.replicate 20 'b' ++ "[Hook]".toList))
        "video" ∧
    clean_output (clean_output
        (List.replicate 76 'a' ++ '.' ::
          (List.replicate 31 'b' ++ "\n\n<|endoftext|>w".toList)) "content") "content"
      ≠ clean_output
        (List.replicate 76 'a' ++ '.' ::
          (List.replicate 31 'b' ++ "\n\n<|endoftext|>w".toList)) "content" :=
  ⟨by decide, by decide, by decide⟩

/-- Claim C1, amended: `clean_output` is idempotent for every content type
other than `summarize` and `video`, on every input in which no artifact
marker occurs. -/
theorem c1_clean_output_idempotent_amended (x : List Char) (t : String)
    (ht1 : t ≠ "summarize") (ht2 : t ≠ "video")
    (hart : ∀ p ∈ artifacts, containsSub p x = false) :
    clean_output (clean_output x t) t = clean_output x t :=
  cleanFixed ht1 ht2 (fun p hp => notSub (hart p hp))

/-- Witness for the amended C1 at a concrete input and type. -/
theorem c1_witness :
    clean_output (clean_output "hi there. General Kenobi".toList "blog") "blog"
      = clean_output "hi there. General Kenobi".toList "blog" :=
  c1_clean_output_idempotent_amended _ "blog" (by decide) (by decide) (by decide)

/-- Claim C2, counterexample: the `summarize` template interpolates the user
input once, not twice (`"zq"` occurs exactly once in the summarize prompt
built from it), and for inputs that also occur in a template's fixed text the
substring count exceeds one (`"a"` occurs 19 times in the blog prompt built
from `"a"`). -/
theorem c2_input_count_counterexample :
    countOcc "zq".toList (get_prompt "summarize" "zq".toList) = 1 ∧
    countOcc "zq".toList (get_prompt "summarize" "zq".toList) ≠ 2 ∧
    countOcc "a".toList (get_prompt "blog" "a".toList) ≠ 1 :=
  ⟨by decide, by decide, by decide⟩

/-- Claim C2, amended: for every content type (the seven supported ones and
any unknown one, via the fallback) the prompt built by `get_prompt` is a fixed
prefix, the user input interpolated exactly once, and a fixed suffix; in
particular this holds for `summarize` (once, not twice).  For a sample input
`"zq"` that occurs nowhere in the fixed template text, the substring count in
each of the seven supported types' prompts is exactly one. -/
theorem c2_single_interpolation_amended :
    (∀ (t : String) (x : List Char),
      get_prompt t x = templatePre t ++ x ++ templateSuf t) ∧
    countOcc "zq".toList (get_prompt "blog" "zq".toList) = 1 ∧
    countOcc "zq".toList (get_prompt "email" "zq".toList) = 1 ∧
    countOcc "zq".toList (get_prompt "copy" "zq".toList) = 1 ∧
    countOcc "zq".toList (get_prompt "seo" "zq".toList) = 1 ∧
    countOcc "zq".toList (get_prompt "video" "zq".toList) = 1 ∧
    countOcc "zq".toList (get_prompt "summarize" "zq".toList) = 1 ∧
    countOcc "zq".toList (get_prompt "content" "zq".toList) = 1 := by
  refine ⟨?_, by decide, by decide, by decide, by decide, by decide, by decide, by decide⟩
  intro t x
  simp only [get_prompt, templatePre, templateSuf]
  split_ifs <;> rfl

/-- Claim C3, counterexample: the artifact loop does not let only the
first-found marker determine the cut point.  On `"A[DONE]B[END]C"` the first
marker found in list order is `[END]`, which would cut to `"A[DONE]B"`, but
the loop continues and `[DONE]` cuts further, to `"A"`.  Also, cleaning
`"Hello<|endoftext|>world"` with content type `email` does not yield
`"Hello"` (the email fix-up prepends a subject line). -/
theorem c3_artifact_first_found_counterexample :
    removeArtifacts "A[DONE]B[END]C".toList = "A".toList ∧
    removeArtifacts "A[DONE]B[END]C".toList ≠ "A[DONE]B".toList ∧
    clean_output "Hello<|endoftext|>world".toList "email" ≠ "Hello".toList :=
  ⟨by decide, by decide, by decide⟩

/-- Claim C3, amended: the artifact loop checks the fixed marker list in
order and truncates at the first occurrence of each marker present in the
current text, so every listed marker can shorten the text further (on
`"A[DONE]B[END]C"` the result is `"A"`).  Cleaning
`"Hello<|endoftext|>world"` yields `"Hello"` for every content type other
than `email` and `video`; for those two the fix-ups prepend their headers to
`"Hello"`. -/
theorem c3_artifact_truncation_amended (t : String) (h1 : t ≠ "email")
    (h2 : t ≠ "video") :
    clean_output "Hello<|endoftext|>world".toList t = "Hello".toList ∧
    removeArtifacts "A[DONE]B[END]C".toList = "A".toList ∧
    clean_output "Hello<|endoftext|>world".toList "email"
      = "Subject: Re: Your Inquiry\n\nHello".toList ∧
    clean_output "Hello<|endoftext|>world".toList "video"
      = "[Opening Hook]\nHello".toList := by
  refine ⟨?_, by decide, by decide, by decide⟩
  by_cases h3 : t = "summarize"
  · subst h3; decide
  · rw [clean_output_eq, dispatchFix_other h1 h2 h3]
    decide

/-- Witness for the amended C3 at the content type `content`. -/
theorem c3_witness :
    clean_output "Hello<|endoftext|>world".toList "content" = "Hello".toList :=
  (c3_artifact_truncation_amended "content" (by decide) (by decide)).1

/-- Claim C4, counterexample: the `type` field of `GenerateRequest` does not
default to `"content"`. -/
theorem c4_default_type_counterexample : requestTypeField none ≠ "content" := by
  decide

/-- Claim C4, amended: when the `type` field is omitted from the request
body, the schema applies the default `"blog"` (app.py line 42). -/
theorem c4_default_type_amended : requestTypeField none = "blog" := rfl

/-- Claim C5: for every input string and every content type, the output of
`clean_output` contains neither three consecutive newlines nor two
consecutive spaces. -/
theorem c5_no_triple_newline_no_double_space (x : List Char) (t : String) :
    ¬nl3 <:+: clean_output x t ∧ ¬sp2 <:+: clean_output x t :=
  cleanNoPatterns x t

/-- Claim C6, counterexample: the trim threshold is not the exact rational
`position > 0.7 * length`.  On a 170-character text whose rightmost period is
at index 119 — exactly 70% through, hence NOT within the final 30% — the
claim says the text is left unmodified, but the program trims at that period:
CPython evaluates `170 * 0.7` to the double `119 - 2^-46`, strictly below
`119`, so `last_period > len(text) * 0.7` holds. -/
theorem c6_trim_boundary_counterexample :
    sentenceTrim (List.replicate 119 'a' ++ '.' :: List.replicate 50 'b')
      = List.replicate 119 'a' ++ ['.'] ∧
    sentenceTrim (List.replicate 119 'a' ++ '.' :: List.replicate 50 'b')
      ≠ List.replicate 119 'a' ++ '.' :: List.replicate 50 'b' ∧
    lastPeriod (List.replicate 119 'a' ++ '.' :: List.replicate 50 'b') = 119 ∧
    (List.replicate 119 'a' ++ '.' :: List.replicate 50 'b').length = 170 ∧
    ¬(7 * ((List.replicate 119 'a' ++ '.' :: List.replicate 50 'b').length : Int)
        < 10 * lastPeriod (List.replicate 119 'a' ++ '.' :: List.replicate 50 'b')) ∧
    clean_output (List.replicate 119 'a' ++ '.' :: List.replicate 50 'b') "content"
      = List.replicate 119 'a' ++ ['.'] :=
  ⟨by decide, by decide, by decide, by decide, by decide, by decide⟩

/-- Claim C6, amended: the sentence-completion trim behaves as claimed except
that the threshold comparison `last_period > len(text) * 0.7` is evaluated in
IEEE-754 double arithmetic (modelled exactly by `pyFloatGt07`): for every
text longer than 100 characters whose last character is not closing
punctuation, the trim truncates to `text[:last_period + 1]` exactly when that
floating-point comparison holds, and leaves the text unchanged otherwise;
`lastPeriod` really is the rightmost occurrence of `.`, `!` or `?`.  For
every length up to `2^48` that is not a multiple of 10, the floating
comparison coincides with the exact rational `10 * last_period > 7 * len`;
at multiples of 10 the rounded product can fall just below `0.7 * len`
(e.g. length 170), where the code also trims at a position exactly 70%
through.  The two original 150-character examples hold unchanged (shown
through the whole `clean_output` pipeline). -/
theorem c6_sentence_trim_amended (t : List Char) :
    (100 < t.length → lastChar t ∉ endPunct →
      ((pyFloatGt07 (lastPeriod t) t.length = true →
          sentenceTrim t = t.take (lastPeriod t + 1).toNat) ∧
       (pyFloatGt07 (lastPeriod t) t.length = false → sentenceTrim t = t))) ∧
    ((t.length ≤ 100 ∨ lastChar t ∈ endPunct) → sentenceTrim t = t) ∧
    (∀ lp : Int, 1 ≤ t.length → t.length ≤ 2 ^ 48 → t.length % 10 ≠ 0 →
      (pyFloatGt07 lp t.length = true ↔ 7 * (t.length : Int) < 10 * lp)) ∧
    (∀ i : Nat, lastPeriod t = (i : Int) →
      (t[i]? = some '.' ∨ t[i]? = some '!' ∨ t[i]? = some '?') ∧
      (∀ j : Nat, i < j →
        t[j]? ≠ some '.' ∧ t[j]? ≠ some '!' ∧ t[j]? ≠ some '?')) ∧
    clean_output (List.replicate 120 'a' ++ '.' :: List.replicate 29 'b') "content"
      = List.replicate 120 'a' ++ ['.'] ∧
    clean_output (List.replicate 90 'a' ++ '.' :: List.replicate 59 'b') "content"
      = List.replicate 90 'a' ++ '.' :: List.replicate 59 'b' := by
  refine ⟨?_, ?_, fun lp h1 h2 h3 => pyFloatGt07_agrees h1 h2 h3, ?_, by decide, by decide⟩
  · intro hlen hpunct
    have houter : (100 < t.length && !endPunct.contains (lastChar t)) = true := by
      simp [hlen, hpunct]
    constructor
    · intro hin
      rw [sentenceTrim, if_pos houter, if_pos hin]
    · intro hin
      rw [sentenceTrim, if_pos houter, if_neg (by simp [hin])]
  · intro h12
    have houter : ¬((100 < t.length && !endPunct.contains (lastChar t)) = true) := by
      rcases h12 with h | h
      · simp [Nat.not_lt.mpr h]
      · simp [h]
    rw [sentenceTrim, if_neg houter]
  · intro i hi
    constructor
    · have hmax : lastPeriod t = rfind '.' t ∨ lastPeriod t = rfind '!' t ∨
          lastPeriod t = rfind '?' t := by
        rw [lastPeriod]
        rcases max_choice (rfind '.' t) (max (rfind '!' t) (rfind '?' t)) with hm | hm
        · exact Or.inl hm
        · rcases max_choice (rfind '!' t) (rfind '?' t) with hm2 | hm2
          · exact Or.inr (Or.inl (hm.trans hm2))
          · exact Or.inr (Or.inr (hm.trans hm2))
      rcases hmax with hm | hm | hm
      · exact Or.inl (rfindGet '.' t i (hm.symm.trans hi))
      · exact Or.inr (Or.inl (rfindGet '!' t i (hm.symm.trans hi)))
      · exact Or.inr (Or.inr (rfindGet '?' t i (hm.symm.trans hi)))
    · intro j hj
      refine ⟨rfindLast '.' t j ?_, rfindLast '!' t j ?_, rfindLast '?' t j ?_⟩
      · have := le_max_left (rfind '.' t) (max (rfind '!' t) (rfind '?' t))
        rw [← lastPeriod, hi] at this
        omega
      · have h1 := le_max_left (rfind '!' t) (rfind '?' t)
        have h2 := le_max_right (rfind '.' t) (max (rfind '!' t) (rfind '?' t))
        rw [← lastPeriod, hi] at h2
        omega
      · have h1 := le_max_right (rfind '!' t) (rfind '?' t)
        have h2 := le_max_right (rfind '.' t) (max (rfind '!' t) (rfind '?' t))
        rw [← lastPeriod, hi] at h2
        omega

/-- Witness for the amended C6: the trim branch applied at the 150-character
example, and the float/rational agreement applied at an off-multiple length. -/
theorem c6_witness :
    sentenceTrim (List.replicate 120 'a' ++ '.' :: List.replicate 29 'b')
      = (List.replicate 120 'a' ++ '.' :: List.replicate 29 'b').take 121 ∧
    (pyFloatGt07 105 149 = true ↔ 7 * ((149 : Nat) : Int) < 10 * 105) := by
  constructor
  · have h := ((c6_sentence_trim_amended
        (List.replicate 120 'a' ++ '.' :: List.replicate 29 'b')).1
      (by decide) (by decide)).1 (by decide)
    rw [show (lastPeriod (List.replicate 120 'a' ++ '.' :: List.replicate 29 'b')
        + 1).toNat = 121 from by decide] at h
    exact h
  · have h := (c6_sentence_trim_amended (List.replicate 148 'c' ++ ['d'])).2.2.1 105
      (by decide) (by decide) (by decide)
    simpa using h

/-- Claim C7: for every content type outside the supported set, `get_prompt`
and `clean_output` behave exactly as they do for `content`. -/
theorem c7_unknown_type_fallback (t : String) (x : List Char)
    (h : t ∉ get_available_types) :
    get_prompt t x = get_prompt "content" x ∧
    clean_output x t = clean_output x "content" := by
  simp only [get_available_types, List.mem_cons, List.not_mem_nil, or_false,
    not_or] at h
  obtain ⟨hb, he, hc, hs, hv, hsu, hco⟩ := h
  constructor
  · rw [get_prompt, if_neg hb, if_neg he, if_neg hc, if_neg hs, if_neg hv, if_neg hsu]
    rfl
  · rw [clean_output_eq, clean_output_eq, dispatchFix_other he hv hsu,
      dispatchFix_other (by decide) (by decide) (by decide)]

/-- Witness for C7 at the unknown type `poem`. -/
theorem c7_witness :
    get_prompt "poem" "x".toList = get_prompt "content" "x".toList ∧
    clean_output "x".toList "poem" = clean_output "x".toList "content" :=
  c7_unknown_type_fallback "poem" "x".toList (by decide)

/-- Claim C8: if the base prompt contains no blank-line boundary, the context
insertion of `add_context` is skipped and the base prompt is returned
unchanged, for every additional-context string (second conjunct: the same for
an arbitrary base string, which makes the property non-vacuous — every
prompt the seven templates actually build contains a blank line). -/
theorem c8_add_context_single_paragraph :
    (∀ (t : String) (x ctx : List Char), ¬nl2 <:+: get_prompt t x →
      add_context t x ctx = get_prompt t x) ∧
    (∀ (base ctx : List Char), ¬nl2 <:+: base → addContextToBase base ctx = base) :=
  ⟨fun _t _x ctx h => addContextToBase_single h ctx,
   fun _base ctx h => addContextToBase_single h ctx⟩

/-- Witness for C8 at a one-paragraph base string. -/
theorem c8_witness : addContextToBase "hi".toList "extra context".toList = "hi".toList :=
  c8_add_context_single_paragraph.2 "hi".toList "extra context".toList
    (notSub (by decide))

/-- Claim C9: when the model failed to load (the startup handler caught the
exception and left the global at `None`), every `POST /api/generate` request
returns HTTP 503 with the "model not loaded" detail, for every generator,
request type and input — the prompt-build/generate/clean pipeline is never
consulted, and repeated requests fail identically. -/
theorem c9_model_unavailable_503 :
    (∀ e : String, startup_event (.error e) = none) ∧
    (∀ (gen : AIWriterModel → List Char → Except String (List Char))
       (reqType : String) (reqInput : List Char),
      generate_content none gen reqType reqInput =
        .error ⟨503, "Model not loaded. Please wait and try again."⟩) :=
  ⟨fun _ => rfl, fun _ _ _ => rfl⟩

/-- Claim C10: once a model instance exists, `get_model` ignores its
`model_name` argument: after `get_model(a)` created the singleton, a call
`get_model(b)` with `a ≠ b` returns the same instance, still bound to `a`,
with the stored state unchanged; only `reload_model` replaces the singleton
with an instance bound to the newly requested name. -/
theorem c10_get_model_singleton (a b : String) (_hab : a ≠ b) :
    (∀ (m : AIWriterModel) (name : String), get_model (some m) name = (m, some m)) ∧
    (get_model none a).1.model_name = a ∧
    (get_model (get_model none a).2 b).1 = (get_model none a).1 ∧
    (get_model (get_model none a).2 b).2 = (get_model none a).2 ∧
    (get_model (get_model none a).2 b).1.model_name = a ∧
    (reload_model (get_model none a).2 b).1.model_name = b ∧
    (reload_model (get_model none a).2 b).2 = some ⟨b⟩ :=
  ⟨fun _ _ => rfl, rfl, rfl, rfl, rfl, rfl, rfl⟩

/-- Witness for C10 at two distinct model names. -/
theorem c10_witness :
    (∀ (m : AIWriterModel) (name : String),
      get_model (some m) name = (m, some m)) ∧
    (get_model none "gpt2").1.model_name = "gpt2" ∧
    (get_model (get_model none "gpt2").2 "distilgpt2").1 = (get_model none "gpt2").1 ∧
    (get_model (get_model none "gpt2").2 "distilgpt2").2 = (get_model none "gpt2").2 ∧
    (get_model (get_model none "gpt2").2 "distilgpt2").1.model_name = "gpt2" ∧
    (reload_model (get_model none "gpt2").2 "distilgpt2").1.model_name = "distilgpt2" ∧
    (reload_model (get_model none "gpt2").2 "distilgpt2").2 = some ⟨"distilgpt2"⟩ :=
  c10_get_model_singleton "gpt2" "distilgpt2" (by decide)

end AIWriter
